import Mathlib

/-!
# Verification of the PyBaMM discretisation engine (shallow embedding)

This file embeds, in Lean 4, the core of the expression-tree discretisation
engine of the repository:

* `pybamm/discretisations/discretisation.py` — the `Discretisation` engine
  (state-vector slot allocation, slice-ordered concatenation, the
  `process_symbol` rewrite, mass-matrix assembly, `process_model`);
* `pybamm/spatial_methods/spatial_method.py` and
  `pybamm/spatial_methods/finite_volume.py` — the spatial-method contract and
  the finite-volume implementation (gradient / divergence matrices, ghost
  nodes, binary-operator processing, domain concatenation);
* `pybamm/discretisations/base_discretisation.py` — the legacy engine
  (diffusivity averaging in `process_binary_operators`);
* `pybamm/models/base_model.py` — `BaseModel.check_well_posedness`.

Machine reals (numpy float64 arrays) are modelled with rationals `ℚ`;
Python dicts keyed by node ids are modelled as association lists with
insert-or-overwrite update; fallible Python operations (dict `KeyError`,
attribute errors, list indexing) return `Except`.  The mesh provider and
parts of the expression-tree base class (`pybamm/meshes`,
`pybamm/expression_tree/symbol.py`, `concatenations.py`) are not part of the
source tree; where a definition depends on them it is modelled from the
specification and marked `Modelled from the spec:` in its doc comment.
-/

namespace PyBaMM

/-- A Python `slice(start, stop)` with integer endpoints, as stored in the
engine's `y_slices` map. -/
structure PySlice where
  start : ℕ
  stop : ℕ
deriving DecidableEq, Repr

/-- A continuous unknown (`pybamm.Variable`): structural identity `id`,
display name and list of subdomain names. -/
structure PyVariable where
  id : ℕ
  name : String
  domain : List String
deriving DecidableEq, Repr

/-- A key of `model.rhs` / `model.algebraic` as consumed by
`Discretisation.set_variable_slices`: either a plain variable or a
`pybamm.Concatenation` whose children are variables. -/
inductive KeySymbol where
  | var (v : PyVariable)
  | concat (children : List PyVariable)
deriving DecidableEq, Repr

/-- Errors surfaced by the embedded Python code. -/
inductive PyError where
  | keyError (key : String)
  | indexError
  | attributeError (attr : String)
  | notImplementedError (msg : String)
  | modelError (msg : String) (names : List String)
  | typeError (msg : String)
  | valueError (msg : String)
deriving DecidableEq, Repr

instance {ε α : Type} [DecidableEq ε] [DecidableEq α] :
    DecidableEq (Except ε α)
  | .ok a, .ok b =>
      if h : a = b then .isTrue (by rw [h]) else .isFalse (by simp [h])
  | .ok _, .error _ => .isFalse (by simp)
  | .error _, .ok _ => .isFalse (by simp)
  | .error e, .error f =>
      if h : e = f then .isTrue (by rw [h]) else .isFalse (by simp [h])

/-! ## Python dict model

A Python `dict` keyed by integers, as an association list in insertion
order.  `dictInsert` overwrites the value of an existing key in place and
appends a new key at the end, exactly like a CPython dict assignment. -/

/-- Insert-or-overwrite into an association list (CPython dict assignment). -/
def dictInsert (d : List (ℕ × α)) (k : ℕ) (v : α) : List (ℕ × α) :=
  match d with
  | [] => [(k, v)]
  | (k', v') :: rest =>
      if k' = k then (k, v) :: rest else (k', v') :: dictInsert rest k v

/-- Dict lookup (`d[k]`), first match. -/
def dictGet (d : List (ℕ × α)) (k : ℕ) : Option α :=
  match d with
  | [] => none
  | (k', v) :: rest => if k' = k then some v else dictGet rest k

/-- The key set of an association list. -/
def dictKeys (d : List (ℕ × α)) : List ℕ := d.map Prod.fst

/-! ## Slot allocation: `Discretisation.set_variable_slices`

The engine's mesh interface for slicing: each registered spatial method
carries a mesh mapping a subdomain name to the list of its submeshes, and
each submesh reports `npts_for_broadcast` (`spatial_method.py` sets it to
the raw point count `npts` in `SpatialMethod.__init__`).  The mesh classes
themselves are external to the source tree (spec §6, "Mesh provider"). -/

/-- A submesh as seen by the slot allocator: only its broadcast point count
is consulted (`submesh.npts_for_broadcast`). -/
structure BroadcastSubmesh where
  npts_for_broadcast : ℕ
deriving DecidableEq, Repr

/-- The per-domain spatial-method registry as consulted by
`set_variable_slices`: `self._spatial_methods[dom].mesh[dom]` is a list of
submeshes.  Both lookups are Python dict accesses. -/
structure SlicingRegistry where
  methods : List (String × List (String × List BroadcastSubmesh))

/-- Look up `self._spatial_methods[dom].mesh[dom]`. -/
def SlicingRegistry.submeshes (reg : SlicingRegistry) (dom : String) :
    Except PyError (List BroadcastSubmesh) :=
  match reg.methods.find? (fun p => p.1 = dom) with
  | none => .error (.keyError dom)
  | some (_, mesh) =>
      match mesh.find? (fun p => p.1 = dom) with
      | none => .error (.keyError dom)
      | some (_, subs) => .ok subs

/-- Unpack concatenation keys into their children, in order
(`set_variable_slices`, first loop). -/
def unpackVariables (vars : List KeySymbol) : List PyVariable :=
  match vars with
  | [] => []
  | .var v :: rest => v :: unpackVariables rest
  | .concat children :: rest => children ++ unpackVariables rest

/-- Total of `npts_for_broadcast` over one subdomain's submeshes: the inner
loop `for submesh in self._spatial_methods[dom].mesh[dom]`. -/
def submeshPointsTotal (subs : List BroadcastSubmesh) : ℕ :=
  subs.foldl (fun a s => a + s.npts_for_broadcast) 0

/-- The `for dom in variable.domain` loop of `set_variable_slices`,
accumulating `end`. -/
def variableSizeLoop (reg : SlicingRegistry) (doms : List String) (acc : ℕ) :
    Except PyError ℕ :=
  match doms with
  | [] => .ok acc
  | dom :: rest =>
      match reg.submeshes dom with
      | .error e => .error e
      | .ok subs => variableSizeLoop reg rest (acc + submeshPointsTotal subs)

/-- The number of slots this unknown contributes: the inner double loop of
`set_variable_slices` (`end += 1` for an empty domain, otherwise
`end += submesh.npts_for_broadcast` over every submesh of every subdomain). -/
def variableSize (reg : SlicingRegistry) (v : PyVariable) : Except PyError ℕ :=
  if v.domain = [] then .ok 1
  else variableSizeLoop reg v.domain 0

/-- The main loop of `set_variable_slices`: walk the unpacked variables with
a running offset, assigning `slice(start, end)` into the `y_slices` dict. -/
def setVariableSlicesLoop (reg : SlicingRegistry) (vars : List PyVariable)
    (start : ℕ) (d : List (ℕ × PySlice)) :
    Except PyError (List (ℕ × PySlice)) :=
  match vars with
  | [] => .ok d
  | v :: rest =>
      match variableSize reg v with
      | .error e => .error e
      | .ok sz =>
          setVariableSlicesLoop reg rest (start + sz)
            (dictInsert d v.id ⟨start, start + sz⟩)

/-- `Discretisation.set_variable_slices`: unpack concatenation keys, then
allocate consecutive slices starting at offset 0. -/
def setVariableSlices (reg : SlicingRegistry) (vars : List KeySymbol) :
    Except PyError (List (ℕ × PySlice)) :=
  setVariableSlicesLoop reg (unpackVariables vars) 0 []

/-- The slice lengths, in input order, that the allocator should produce. -/
def sliceSizes (reg : SlicingRegistry) (vars : List PyVariable) :
    Except PyError (List ℕ) :=
  vars.mapM (variableSize reg)

/-- Consecutive half-open slices starting at `start` with the given lengths. -/
def consecutiveSlices (start : ℕ) (sizes : List ℕ) : List PySlice :=
  match sizes with
  | [] => []
  | s :: rest => ⟨start, start + s⟩ :: consecutiveSlices (start + s) rest

/-- Insert a batch of key/slice pairs into a dict, left to right. -/
def insertAll (d : List (ℕ × PySlice)) (ps : List (ℕ × PySlice)) :
    List (ℕ × PySlice) :=
  ps.foldl (fun d p => dictInsert d p.1 p.2) d

/-- The per-variable slot count for a mesh presented as a function
`subs : String → List BroadcastSubmesh` (the successful-lookup view of the
registry): 1 for a domain-less unknown, else the `npts_for_broadcast` total
over every submesh of every subdomain. -/
def sizeOfVariable (subs : String → List BroadcastSubmesh) (v : PyVariable) : ℕ :=
  if v.domain = [] then 1
  else (v.domain.map
    (fun dom => ((subs dom).map BroadcastSubmesh.npts_for_broadcast).sum)).sum

/-! ## Slice-ordered concatenation: `Discretisation._concatenate_in_order`

CPython compares `slice` objects like `(start, stop, step)` tuples
(`slice_richcompare`); `step` is always `None` for the engine's slices, so
two distinct slices compare lexicographically by `(start, stop)`.  On a full
`(start, stop)` tie `sorted` would go on to compare the paired equations,
which `pybamm` symbols do not support; the theorems therefore assume
pairwise-distinct slice starts, which the allocator guarantees. -/

/-- The slice comparison used by `sorted(zip(slices, equations))`:
lexicographic on `(start, stop)`. -/
def sliceLe (s t : PySlice) : Prop :=
  s.start < t.start ∨ (s.start = t.start ∧ s.stop ≤ t.stop)

instance : DecidableRel sliceLe := fun s t => by
  unfold sliceLe; infer_instance

/-- Comparison of `(slice, equation)` pairs by their slice (Python tuple
comparison, never reaching the equation when slices differ). -/
def pairLe {β : Type} (p q : PySlice × β) : Prop := sliceLe p.1 q.1

instance {β : Type} : DecidableRel (pairLe (β := β)) := fun p q => by
  unfold pairLe; infer_instance

instance {β : Type} : IsTotal (PySlice × β) pairLe :=
  ⟨by intro a b; unfold pairLe sliceLe; omega⟩

instance {β : Type} : IsTrans (PySlice × β) pairLe :=
  ⟨by intro a b c; unfold pairLe sliceLe; omega⟩

/-- The display name of a key symbol (`v.name`; a concatenation node's
class-derived name for concatenation keys). -/
def KeySymbol.pyName : KeySymbol → String
  | .var v => v.name
  | .concat _ => "concatenation"

/-- The slice recorded for one key in the unpack loop of
`_concatenate_in_order`: a plain variable's slice, or for a concatenation
key `slice(y[children[0].id].start, y[children[-1].id].stop)`.  A missing
id raises `KeyError`, an empty child list `IndexError`. -/
def concatSliceOf (y : List (ℕ × PySlice)) : KeySymbol → Except PyError PySlice
  | .var v =>
      match dictGet y v.id with
      | none => .error (.keyError v.name)
      | some s => .ok s
  | .concat children =>
      match children.head?, children.getLast? with
      | some c0, some cl =>
          match dictGet y c0.id, dictGet y cl.id with
          | some s0, some sl => .ok ⟨s0.start, sl.stop⟩
          | _, _ => .error (.keyError "concatenation child")
      | _, _ => .error .indexError

/-- The `slices` list accumulated over the dictionary keys. -/
def slicesOf (y : List (ℕ × PySlice)) : List KeySymbol →
    Except PyError (List PySlice)
  | [] => .ok []
  | k :: rest =>
      match concatSliceOf y k with
      | .error e => .error e
      | .ok s =>
          match slicesOf y rest with
          | .error e => .error e
          | .ok ss => .ok (s :: ss)

/-- Python `set(ids) == dict.keys()` as a boolean on id lists. -/
def sameKeySet (ids keys : List ℕ) : Bool :=
  ids.all (fun i => keys.contains i) && keys.all (fun k => ids.contains k)

/-- `Discretisation._concatenate_in_order`, generic in the equation type:
record each key's slice (unpacking concatenation keys), optionally check
that the unpacked id set equals the slice map's key set (raising a
`ModelError` that lists the *given* variables' names), then return the
equations sorted by `sorted(zip(slices, equations))`.  The caller wraps the
result in a `NumpyConcatenation`. -/
def concatenateInOrderList {β : Type} (y : List (ℕ × PySlice))
    (dict : List (KeySymbol × β)) (check_complete : Bool) :
    Except PyError (List β) :=
  match slicesOf y (dict.map Prod.fst) with
  | .error e => .error e
  | .ok slices =>
      if check_complete = true ∧
          sameKeySet ((unpackVariables (dict.map Prod.fst)).map PyVariable.id)
            (dictKeys y) = false then
        .error (.modelError
          "Initial conditions are insufficient. Only provided for"
          (dict.map (fun p => p.1.pyName)))
      else
        .ok (((slices.zip (dict.map Prod.snd)).insertionSort pairLe).map
          Prod.snd)

/-- Slice map for the C2 witness and the C7 counterexample: id 1 at
`[0,1)`, id 2 at `[1,2)`. -/
def ySlicesTwo : List (ℕ × PySlice) := [(1, ⟨0, 1⟩), (2, ⟨1, 2⟩)]

/-- C2 witness dictionary in slice order. -/
def dictAB : List (KeySymbol × String) :=
  [(.var ⟨1, "a", []⟩, "eq_a"), (.var ⟨2, "b", []⟩, "eq_b")]

/-- C2 witness dictionary in reversed iteration order. -/
def dictBA : List (KeySymbol × String) :=
  [(.var ⟨2, "b", []⟩, "eq_b"), (.var ⟨1, "a", []⟩, "eq_a")]

/-- C7 counterexample dictionary: initial condition given only for `a`
(id 1); the slice map also contains id 2 (`b`). -/
def dictOnlyA : List (KeySymbol × String) := [(.var ⟨1, "a", []⟩, "ic_a")]

/-- The slice view of the `ySlicesTwo` map, as a function. -/
def sigmaTwo : KeySymbol → PySlice := fun k =>
  match k with
  | .var v => if v.id = 1 then ⟨0, 1⟩ else ⟨1, 2⟩
  | .concat _ => ⟨0, 0⟩

/-! ## Finite-volume matrices: `FiniteVolume.gradient_matrix` /
`divergence_matrix`

`self.mesh.combine_submeshes(*domain)` is supplied by the external mesh
provider (spec §6); the combined submesh is therefore taken as input data:
cell-centre count `npts`, node/edge coordinates and spacings as rational
vectors (modelling the numpy float arrays). -/

/-- A combined 1-D submesh as consumed by the finite-volume matrix
builders. -/
structure FVSubmesh where
  npts : ℕ
  nodes : List ℚ
  edges : List ℚ
  d_nodes : List ℚ
  d_edges : List ℚ
deriving DecidableEq, Repr

/-- `scipy.sparse.spdiags` entry semantics: diagonal values are stored by
column index, so entry `(i, j)` collects `data[idx][j]` for each `idx` with
`offsets[idx] = j - i`. -/
def spdiagsEntry (data : List (List ℚ)) (offsets : List ℤ) (i j : ℕ) : ℚ :=
  ((offsets.zip data).filter (fun p => p.1 = (j : ℤ) - (i : ℤ))).foldl
    (fun acc p => acc + p.2.getD j 0) 0

/-- `scipy.sparse.spdiags(data, offsets, m, n)` as a dense row list. -/
def spdiags (data : List (List ℚ)) (offsets : List ℤ) (m n : ℕ) :
    List (List ℚ) :=
  (List.range m).map (fun i =>
    (List.range n).map (fun j => spdiagsEntry data offsets i j))

/-- `FiniteVolume.gradient_matrix`: `n = submesh.npts`, `e = 1/d_nodes`,
`spdiags(vstack([concat([-e, [0]]), concat([[0], e])]), [0, 1], n-1, n)`. -/
def gradientMatrixRows (submesh : FVSubmesh) : List (List ℚ) :=
  spdiags
    [(submesh.d_nodes.map (fun d => -(1 / d))) ++ [0],
     0 :: submesh.d_nodes.map (fun d => 1 / d)]
    [0, 1] (submesh.npts - 1) submesh.npts

/-- `FiniteVolume.divergence_matrix`: `n = submesh.npts + 1`,
`e = 1/d_edges`, `spdiags(..., [0, 1], n-1, n)`. -/
def divergenceMatrixRows (submesh : FVSubmesh) : List (List ℚ) :=
  spdiags
    [(submesh.d_edges.map (fun d => -(1 / d))) ++ [0],
     0 :: submesh.d_edges.map (fun d => 1 / d)]
    [0, 1] (submesh.npts + 1 - 1) (submesh.npts + 1)

/-- Dense matrix–vector product (numpy `@` on the materialised matrix):
row `i` of the result is `Σ_j M[i][j] * u[j]`. -/
def matVec (M : List (List ℚ)) (u : List ℚ) : List ℚ :=
  M.map (fun row => ∑ j ∈ Finset.range u.length, row.getD j 0 * u.getD j 0)

/-- Concrete combined submesh for the C6 witness: 3 cell centres with
spacings 1/2. -/
def submeshC6 : FVSubmesh := ⟨3, [], [], [1/2, 1/2], []⟩

/-! ## Expression trees

The node kinds of the expression universe that the embedded engine
manipulates.  `bcTuple` represents a raw Python `(expression, kind)` pair:
`FiniteVolume.gradient`/`divergence` read boundary-condition table entries
— which `process_boundary_conditions` stores as `(processed_eqn, typ)`
tuples — and pass them into `2 * lbc - first_node` / `NumpyConcatenation`
without unpacking them, so the tuple itself flows into the tree being
built. -/

inductive Expr where
  | scalar (value : ℚ)
  | vector (entries : List ℚ)
  | matrixNode (rows : List (List ℚ))
  | stateVector (ySlice : PySlice) (domain : List String)
  | variableNode (id : ℕ) (name : String) (domain : List String)
  | timeNode
  | add (l r : Expr)
  | sub (l r : Expr)
  | mul (l r : Expr)
  | divOp (l r : Expr)
  | pow (base e : Expr)
  | matmul (l r : Expr)
  | neg (c : Expr)
  | absOp (c : Expr)
  | grad (c : Expr)
  | divergence (c : Expr)
  | broadcast (c : Expr) (domain : List String)
  | nodeToEdge (c : Expr)
  | concatenation (children : List Expr) (domain : List String)
  | numpyConcatenation (children : List Expr)
  | bcTuple (e : Expr) (kind : String)

/-- Modelled from the spec: a node's `domain` (symbol.py is not in the
source tree).  Binary operators combine their children's domains — the
non-empty one when one side is domain-free; unary operators inherit the
child's; leaves carry their own. -/
def Expr.domainOf : Expr → List String
  | .scalar _ => []
  | .vector _ => []
  | .matrixNode _ => []
  | .stateVector _ dom => dom
  | .variableNode _ _ dom => dom
  | .timeNode => []
  | .add l r => if l.domainOf = [] then r.domainOf else l.domainOf
  | .sub l r => if l.domainOf = [] then r.domainOf else l.domainOf
  | .mul l r => if l.domainOf = [] then r.domainOf else l.domainOf
  | .divOp l r => if l.domainOf = [] then r.domainOf else l.domainOf
  | .pow l r => if l.domainOf = [] then r.domainOf else l.domainOf
  | .matmul l r => if l.domainOf = [] then r.domainOf else l.domainOf
  | .neg c => c.domainOf
  | .absOp c => c.domainOf
  | .grad c => c.domainOf
  | .divergence c => c.domainOf
  | .broadcast _ dom => dom
  | .nodeToEdge c => c.domainOf
  | .concatenation _ dom => dom
  | .numpyConcatenation _ => []
  | .bcTuple _ _ => []

/-- Modelled from the spec: `Symbol.id` is an injective content hash, and
the engine's boundary-condition table is keyed by the ids of the model's
`Variable` keys; a symbol's id lies in the table exactly when the symbol is
one of those variables, so the lookup keys on the variable id. -/
def Expr.varId : Expr → Option ℕ
  | .variableNode i _ _ => some i
  | _ => none

/-- One unknown's boundary conditions: the `{"left": (expr, kind),
"right": (expr, kind)}` entry built by `process_boundary_conditions`. -/
structure SideBCs where
  left : Expr × String
  right : Expr × String

/-- `symbol.id in boundary_conditions` followed by the entry lookup. -/
def bcLookup (bcs : List (ℕ × SideBCs)) (symbol : Expr) : Option SideBCs :=
  match symbol.varId with
  | some i => dictGet bcs i
  | none => none

/-! ## Finite-volume gradient and divergence -/

/-- The finite-volume mesh interface.  The mesh provider is external
(spec §6); the access patterns the source uses are modelled as separate
data fields: `self.mesh[dom]` (one submesh per domain, as read by
`FiniteVolume.divergence`), `combine_submeshes` as read by
`FiniteVolume.gradient_matrix`/`divergence_matrix` (a combined submesh),
and `combine_submeshes` as read by `SpatialMethod.mass_matrix` /
`domain_concatenation` (a list of submeshes, indexed with `[0]`). -/
structure FVMesh where
  entries : List (String × FVSubmesh)
  combine : List String → Option FVSubmesh
  combineList : List String → Option (List FVSubmesh)

/-- `self.mesh[dom]`. -/
def FVMesh.get (m : FVMesh) (dom : String) : Option FVSubmesh :=
  (m.entries.find? (fun p => p.1 = dom)).map Prod.snd

/-- `FiniteVolume.add_ghost_nodes`: requires a `StateVector`; builds
`2 * lbc - first_node` and `2 * rbc - last_node` from the table entries
(`lbc`/`rbc` being the raw `(expression, kind)` pairs) and concatenates
them around the vector. -/
def addGhostNodes (discretised_symbol : Expr) (lbc rbc : Expr × String) :
    Except PyError Expr :=
  match discretised_symbol with
  | .stateVector ySlice _ =>
      .ok (.numpyConcatenation
        [.sub (.mul (.scalar 2) (.bcTuple lbc.1 lbc.2))
          (.stateVector ⟨ySlice.start, ySlice.start + 1⟩ []),
         discretised_symbol,
         .sub (.mul (.scalar 2) (.bcTuple rbc.1 rbc.2))
          (.stateVector ⟨ySlice.stop - 1, ySlice.stop⟩ [])])
  | _ => .error (.notImplementedError
      "discretised_symbol must be a StateVector")

/-- `FiniteVolume.gradient`: if the operand's id has a boundary-condition
entry — whatever its kind — add ghost nodes and extend the domain with the
two ghost-cell names; then multiply by the gradient matrix on the
(possibly extended) combined submesh. -/
def fvGradient (mesh : FVMesh) (symbol discretised_symbol : Expr)
    (bcs : List (ℕ × SideBCs)) : Except PyError Expr :=
  match bcLookup bcs symbol with
  | some entry =>
      match addGhostNodes discretised_symbol entry.left entry.right with
      | .error e => .error e
      | .ok disc =>
          match symbol.domainOf.head?, symbol.domainOf.getLast? with
          | some d0, some dl =>
              match mesh.combine ((d0 ++ "_left ghost cell")
                  :: symbol.domainOf ++ [dl ++ "_right ghost cell"]) with
              | none => .error (.keyError "combine_submeshes")
              | some submesh =>
                  .ok (.matmul (.matrixNode (gradientMatrixRows submesh)) disc)
          | _, _ => .error .indexError
  | none =>
      match mesh.combine symbol.domainOf with
      | none => .error (.keyError "combine_submeshes")
      | some submesh =>
          .ok (.matmul (.matrixNode (gradientMatrixRows submesh))
            discretised_symbol)

/-- Python `("negative particle" or "positive particle")`: `or` returns its
first truthy operand, i.e. the first non-empty string. -/
def pyOrStr (a b : String) : String := if a = "" then b else a

/-- `FiniteVolume.divergence`: if the operand's id has a boundary-condition
entry — whatever its kind — concatenate the raw table pairs around the
flux vector; then test
`("negative particle" or "positive particle") in domain` and apply either
the spherical form `(1/r²) * (D @ (r_edges² * N))` or the plain `D @ N`. -/
def fvDivergence (mesh : FVMesh) (symbol discretised_symbol : Expr)
    (bcs : List (ℕ × SideBCs)) : Except PyError Expr :=
  let disc := match bcLookup bcs symbol with
    | some entry =>
        Expr.numpyConcatenation
          [.bcTuple entry.left.1 entry.left.2, discretised_symbol,
           .bcTuple entry.right.1 entry.right.2]
    | none => discretised_symbol
  if (pyOrStr "negative particle" "positive particle") ∈ symbol.domainOf then
    match mesh.combine symbol.domainOf with
    | none => .error (.keyError "combine_submeshes")
    | some csub =>
        match symbol.domainOf.head? with
        | none => .error .indexError
        | some d0 =>
            match mesh.get d0 with
            | none => .error (.keyError d0)
            | some submesh =>
                .ok (.mul
                  (.divOp (.scalar 1) (.pow (.vector submesh.nodes) (.scalar 2)))
                  (.matmul (.matrixNode (divergenceMatrixRows csub))
                    (.mul (.pow (.vector submesh.edges) (.scalar 2)) disc)))
  else
    match mesh.combine symbol.domainOf with
    | none => .error (.keyError "combine_submeshes")
    | some csub =>
        .ok (.matmul (.matrixNode (divergenceMatrixRows csub)) disc)

/-! ## Binary-operator processing (spatial-method and legacy paths) -/

/-- `SpatialMethod.process_binary_operators` (inherited unchanged by
`FiniteVolume`): rebuild the operator's class on the discretised children —
no shape coercion of any kind. -/
def processBinaryOperatorsBase (bin_op _left _right disc_left disc_right :
    Expr) : Except PyError Expr :=
  match bin_op with
  | .add _ _ => .ok (.add disc_left disc_right)
  | .sub _ _ => .ok (.sub disc_left disc_right)
  | .mul _ _ => .ok (.mul disc_left disc_right)
  | .divOp _ _ => .ok (.divOp disc_left disc_right)
  | .pow _ _ => .ok (.pow disc_left disc_right)
  | .matmul _ _ => .ok (.matmul disc_left disc_right)
  | _ => .error (.notImplementedError "not a binary operator")

mutual

/-- Modelled from the spec: `Symbol.has_gradient_and_not_divergence`
(symbol.py is not in the source tree) — whether the subtree contains a
gradient node. -/
def anyGradient : Expr → Bool
  | .grad _ => true
  | .add l r => anyGradient l || anyGradient r
  | .sub l r => anyGradient l || anyGradient r
  | .mul l r => anyGradient l || anyGradient r
  | .divOp l r => anyGradient l || anyGradient r
  | .pow l r => anyGradient l || anyGradient r
  | .matmul l r => anyGradient l || anyGradient r
  | .neg c => anyGradient c
  | .absOp c => anyGradient c
  | .divergence c => anyGradient c
  | .broadcast c _ => anyGradient c
  | .nodeToEdge c => anyGradient c
  | .concatenation cs _ => anyGradientList cs
  | .numpyConcatenation cs => anyGradientList cs
  | .bcTuple e _ => anyGradient e
  | _ => false

/-- Gradient search over a child list. -/
def anyGradientList : List Expr → Bool
  | [] => false
  | e :: rest => anyGradient e || anyGradientList rest

end

mutual

/-- Modelled from the spec: whether the subtree contains a divergence
node. -/
def anyDivergence : Expr → Bool
  | .divergence _ => true
  | .add l r => anyDivergence l || anyDivergence r
  | .sub l r => anyDivergence l || anyDivergence r
  | .mul l r => anyDivergence l || anyDivergence r
  | .divOp l r => anyDivergence l || anyDivergence r
  | .pow l r => anyDivergence l || anyDivergence r
  | .matmul l r => anyDivergence l || anyDivergence r
  | .neg c => anyDivergence c
  | .absOp c => anyDivergence c
  | .grad c => anyDivergence c
  | .broadcast c _ => anyDivergence c
  | .nodeToEdge c => anyDivergence c
  | .concatenation cs _ => anyDivergenceList cs
  | .numpyConcatenation cs => anyDivergenceList cs
  | .bcTuple e _ => anyDivergence e
  | _ => false

/-- Divergence search over a child list. -/
def anyDivergenceList : List Expr → Bool
  | [] => false
  | e :: rest => anyDivergence e || anyDivergenceList rest

end

/-- `has_gradient_and_not_divergence`. -/
def hasGradNotDiv (e : Expr) : Bool := anyGradient e && !anyDivergence e

/-- The averaging step of the legacy
`BaseDiscretisation.process_binary_operators` (lines 282-301): when exactly
one child subtree has a gradient and no divergence, wrap the other
discretised child in `compute_diffusivity` —
`FiniteVolumeDiscretisation.compute_diffusivity` builds the
arithmetic-mean `NodeToEdge` node. -/
def legacyBinaryAveraging (left right new_left new_right : Expr) :
    Expr × Expr :=
  if hasGradNotDiv left = hasGradNotDiv right then (new_left, new_right)
  else if hasGradNotDiv left && !hasGradNotDiv right then
    (new_left, .nodeToEdge new_right)
  else (.nodeToEdge new_left, new_right)

/-! ## Structural identity and traversal

`symbol.py` is not in the source tree; structural equality models the
content-hash identity `Symbol.id` (spec §3: two nodes with identical
name/kind/domain/children must compare equal). -/

mutual

/-- Modelled from the spec: structural equality of expression nodes, the
decidable counterpart of id equality. -/
def Expr.beq : Expr → Expr → Bool
  | .scalar a, .scalar b => a == b
  | .vector a, .vector b => a == b
  | .matrixNode a, .matrixNode b => a == b
  | .stateVector s d, .stateVector s' d' => s == s' && d == d'
  | .variableNode i n d, .variableNode i' n' d' => i == i' && n == n' && d == d'
  | .timeNode, .timeNode => true
  | .add l r, .add l' r' => Expr.beq l l' && Expr.beq r r'
  | .sub l r, .sub l' r' => Expr.beq l l' && Expr.beq r r'
  | .mul l r, .mul l' r' => Expr.beq l l' && Expr.beq r r'
  | .divOp l r, .divOp l' r' => Expr.beq l l' && Expr.beq r r'
  | .pow l r, .pow l' r' => Expr.beq l l' && Expr.beq r r'
  | .matmul l r, .matmul l' r' => Expr.beq l l' && Expr.beq r r'
  | .neg c, .neg c' => Expr.beq c c'
  | .absOp c, .absOp c' => Expr.beq c c'
  | .grad c, .grad c' => Expr.beq c c'
  | .divergence c, .divergence c' => Expr.beq c c'
  | .broadcast c d, .broadcast c' d' => Expr.beq c c' && d == d'
  | .nodeToEdge c, .nodeToEdge c' => Expr.beq c c'
  | .concatenation cs d, .concatenation cs' d' => Expr.beqList cs cs' && d == d'
  | .numpyConcatenation cs, .numpyConcatenation cs' => Expr.beqList cs cs'
  | .bcTuple e k, .bcTuple e' k' => Expr.beq e e' && k == k'
  | _, _ => false

/-- Structural equality of child lists. -/
def Expr.beqList : List Expr → List Expr → Bool
  | [], [] => true
  | e :: rest, e' :: rest' => Expr.beq e e' && Expr.beqList rest rest'
  | _, _ => false

end

mutual

/-- `Symbol.pre_order`: the node followed by its descendants in pre-order
(symbol.py is not in the source tree; modelled from the spec's tree-walk
contract). -/
def preOrder : Expr → List Expr
  | .scalar v => [.scalar v]
  | .vector v => [.vector v]
  | .matrixNode m => [.matrixNode m]
  | .stateVector s d => [.stateVector s d]
  | .variableNode i n d => [.variableNode i n d]
  | .timeNode => [.timeNode]
  | .add l r => .add l r :: (preOrder l ++ preOrder r)
  | .sub l r => .sub l r :: (preOrder l ++ preOrder r)
  | .mul l r => .mul l r :: (preOrder l ++ preOrder r)
  | .divOp l r => .divOp l r :: (preOrder l ++ preOrder r)
  | .pow l r => .pow l r :: (preOrder l ++ preOrder r)
  | .matmul l r => .matmul l r :: (preOrder l ++ preOrder r)
  | .neg c => .neg c :: preOrder c
  | .absOp c => .absOp c :: preOrder c
  | .grad c => .grad c :: preOrder c
  | .divergence c => .divergence c :: preOrder c
  | .broadcast c d => .broadcast c d :: preOrder c
  | .nodeToEdge c => .nodeToEdge c :: preOrder c
  | .concatenation cs d => .concatenation cs d :: preOrderList cs
  | .numpyConcatenation cs => .numpyConcatenation cs :: preOrderList cs
  | .bcTuple e k => .bcTuple e k :: preOrder e

/-- Pre-order traversal of a child list. -/
def preOrderList : List Expr → List Expr
  | [] => []
  | e :: rest => preOrder e ++ preOrderList rest

end

/-- `[x.id for x in e.pre_order() if isinstance(x, pybamm.Variable)]`. -/
def varsInPre (e : Expr) : List ℕ := (preOrder e).filterMap Expr.varId

/-- The same collection over all values of an equation dictionary side. -/
def varsInPreList (es : List Expr) : List ℕ := (es.map varsInPre).flatten

/-! ## The model container and well-posedness checks -/

/-- A numeric value produced by `evaluate(t, y)`: a Python number or a
numpy array (modelled as a rational vector). -/
inductive NVal where
  | num (q : ℚ)
  | arr (v : List ℚ)
deriving DecidableEq, Repr

/-- `pybamm.BaseModel`: the equation dictionaries (association lists in
declaration order) plus the discretisation products.  `concatenated_rhs`
and `concatenated_initial_conditions` are properties initialised to `None`
(`none` here means Python `None`); `concatenated_algebraic` and
`mass_matrix` are plain attributes never created by `__init__`, so `none`
for those means the attribute is absent and reading it raises
`AttributeError`. -/
structure BaseModel where
  rhs : List (Expr × Expr) := []
  algebraic : List (Expr × Expr) := []
  initial_conditions : List (Expr × Expr) := []
  boundary_conditions : List (Expr × SideBCs) := []
  variablesDict : List (String × Expr) := []
  events : List Expr := []
  concatenated_rhs : Option Expr := none
  concatenated_initial_conditions : Option NVal := none
  concatenated_algebraic : Option Expr := none
  mass_matrix : Option Expr := none

/-- The well-posedness errors of `BaseModel.check_well_posedness`. -/
inductive ModelErr where
  | overdeterminedRepeatedKeys
  | overdeterminedExtraAlgebraicKeys
  | underdetermined
  | noInitialCondition (name : String)
  | noBoundaryCondition (name : String)
deriving DecidableEq, Repr

/-- The display name of a node, as interpolated into error messages. -/
def Expr.displayName : Expr → String
  | .variableNode _ n _ => n
  | _ => ""

/-- The initial-condition part of `check_well_posedness`: the first rhs key
with no matching (structurally identical) initial-condition entry. -/
def icMissing (rhs ics : List (Expr × Expr)) : Option Expr :=
  (rhs.find? (fun p =>
    !(ics.any (fun q => Expr.beq q.1 p.1)))).map Prod.fst

/-- The boundary-condition part of `check_well_posedness`: the first
rhs/algebraic pair whose equation has a spatial derivative while no
boundary-condition key's pre-order contains the unknown (id equality
modelled structurally).  The merged iteration `{**rhs, **algebraic}` is
rhs entries then algebraic entries; their key sets are disjoint whenever
this check is reached (the repeated-keys check returns first). -/
def bcMissing (eqns : List (Expr × Expr)) (bcKeys : List Expr) : Option Expr :=
  (eqns.find? (fun p =>
    (anyGradient p.2 || anyDivergence p.2)
      && !(bcKeys.any (fun key =>
        (preOrder key).any (fun s => Expr.beq p.1 s))))).map Prod.fst

/-- `BaseModel.check_well_posedness`: in source order — overdetermined by
repeated rhs/algebraic keys, overdetermined by algebraic keys absent from
the equations, underdetermined by equation variables absent from the keys,
then the initial-condition and boundary-condition presence checks. -/
def checkWellPosedness (m : BaseModel) : Option ModelErr :=
  if (varsInPreList (m.rhs.map Prod.fst)).any
      (fun i => (varsInPreList (m.algebraic.map Prod.fst)).contains i) then
    some .overdeterminedRepeatedKeys
  else if (varsInPreList (m.algebraic.map Prod.fst)).any (fun i =>
      !(varsInPreList (m.rhs.map Prod.snd)
        ++ varsInPreList (m.algebraic.map Prod.snd)).contains i) then
    some .overdeterminedExtraAlgebraicKeys
  else if (varsInPreList (m.rhs.map Prod.snd)
      ++ varsInPreList (m.algebraic.map Prod.snd)).any (fun i =>
      !(varsInPreList (m.rhs.map Prod.fst)
        ++ varsInPreList (m.algebraic.map Prod.fst)).contains i) then
    some .underdetermined
  else
    match icMissing m.rhs m.initial_conditions with
    | some v => some (.noInitialCondition v.displayName)
    | none =>
        match bcMissing (m.rhs ++ m.algebraic)
            (m.boundary_conditions.map Prod.fst) with
        | some v => some (.noBoundaryCondition v.displayName)
        | none => none

/-! ## `SpatialMethod.domain_concatenation` (C10)

The function computes the stacked concatenation, then unconditionally runs
`from IPython import embed; embed(); import ipdb; ipdb.set_trace()` before
its `return` statement.  The debug hooks are modelled as an event trace
attached to the returned value: `embed()` blocks on an interactive shell
and `ipdb.set_trace()` on the debugger (or the imports raise), so a
non-interactive caller never observes the pure result. -/

/-- The debugger side effects executed before `return`. -/
inductive DebugEvent where
  | importIPython
  | embedCall
  | importIpdb
  | setTraceCall
deriving DecidableEq, Repr

/-- Python `list.index(x)`: position of the first occurrence, `ValueError`
if absent. -/
def pyIndex (l : List String) (x : String) : Except PyError ℕ :=
  match l.indexOf? x with
  | some i => .ok i
  | none => .error (.valueError "not in list")

/-- The `csr_matrix((npts_total, npts_domain))` with
`eye(npts_domain)` written at rows `npts_before : npts_before+npts_domain`. -/
def concatenationMatrix (npts_total npts_domain npts_before : ℕ) :
    List (List ℚ) :=
  (List.range npts_total).map (fun i =>
    (List.range npts_domain).map (fun j =>
      if i = npts_before + j then 1 else 0))

/-- The loop body of `domain_concatenation`: place each child at its offset
in the total domain and accumulate with `+` (Python's `0 + symbol` wraps
into an addition with `Scalar(0)` via the arithmetic dunders; the loop's
`sub_concatenation.domain = total_domain` metadata write is not otherwise
observable here). -/
def domainConcatLoop (mesh : FVMesh) (total_domain : List String) :
    List Expr → Expr → Except PyError Expr
  | [], acc => .ok acc
  | child :: rest, acc =>
      match mesh.combineList total_domain with
      | none => .error (.keyError "combine_submeshes")
      | some subsTotal =>
          match subsTotal.head? with
          | none => .error .indexError
          | some st =>
              match mesh.combineList child.domainOf with
              | none => .error (.keyError "combine_submeshes")
              | some subsDom =>
                  match subsDom.head? with
                  | none => .error .indexError
                  | some sd =>
                      match child.domainOf.head? with
                      | none => .error .indexError
                      | some d0 =>
                          match pyIndex total_domain d0 with
                          | .error e => .error e
                          | .ok idx =>
                              let domain_before := total_domain.take idx
                              let npts_before : Except PyError ℕ :=
                                if domain_before = [] then .ok 0
                                else
                                  match mesh.combineList domain_before with
                                  | none => .error (.keyError "combine_submeshes")
                                  | some subsBefore =>
                                      match subsBefore.head? with
                                      | none => .error .indexError
                                      | some sb => .ok sb.npts
                              match npts_before with
                              | .error e => .error e
                              | .ok nb =>
                                  domainConcatLoop mesh total_domain rest
                                    (.add acc (.matmul
                                      (.matrixNode (concatenationMatrix
                                        st.npts sd.npts nb))
                                      child))

/-- `SpatialMethod.domain_concatenation`: compute the concatenation, then
invoke the debug hooks, then return. -/
def domainConcatenation (mesh : FVMesh) (children : List Expr) :
    Except PyError (Expr × List DebugEvent) :=
  match domainConcatLoop mesh ((children.map Expr.domainOf).flatten)
      children (.scalar 0) with
  | .error e => .error e
  | .ok conc => .ok (conc,
      [.importIPython, .embedCall, .importIpdb, .setTraceCall])

/-! ## The discretisation engine: `process_symbol` and `process_model` -/

/-- The per-domain spatial-method registry, in the two views the engine
uses: the slicing view (`mesh[dom]` iterated for `npts_for_broadcast`) and
the finite-volume instance (its mesh) for operator lowering.  Both are
views of the same `_spatial_methods` dict. -/
structure DiscSM where
  slicing : SlicingRegistry
  fv : List (String × FVMesh)

/-- The engine's per-`process_model` state: registry, slice map and
lowered boundary-condition table. -/
structure DiscState where
  sm : DiscSM
  ySlices : List (ℕ × PySlice)
  bcs : List (ℕ × SideBCs)

/-- `self._spatial_methods[dom]` (finite-volume view). -/
def smLookup (st : DiscState) (dom : String) : Option FVMesh :=
  (st.sm.fv.find? (fun p => p.1 = dom)).map Prod.snd

/-- Modelled from the spec: `Symbol.evaluates_to_number` (symbol.py is not
in the source tree) — whether the expression evaluates to a pure number:
scalars, and arithmetic over such. -/
def evaluatesToNumber : Expr → Bool
  | .scalar _ => true
  | .add l r => evaluatesToNumber l && evaluatesToNumber r
  | .sub l r => evaluatesToNumber l && evaluatesToNumber r
  | .mul l r => evaluatesToNumber l && evaluatesToNumber r
  | .divOp l r => evaluatesToNumber l && evaluatesToNumber r
  | .pow l r => evaluatesToNumber l && evaluatesToNumber r
  | .neg c => evaluatesToNumber c
  | .absOp c => evaluatesToNumber c
  | _ => false

/-- Modelled from the spec: `FiniteVolume.broadcast` wraps the symbol in a
`NumpyBroadcast` (concatenations.py is not in the source tree); per the
spec the broadcast multiplies by a ones-vector sized to the target
domain's cell count.  The constant-folding of constant symbols into an
`Array` is not modelled. -/
def fvBroadcast (mesh : FVMesh) (symbol : Expr) (domain : List String) :
    Except PyError Expr :=
  match domain.mapM (fun dom => (mesh.get dom).map (fun s => s.npts)) with
  | none => .error (.keyError "mesh")
  | some ns => .ok (.mul symbol (.vector (List.replicate ns.sum 1)))

/-- The empty-domain binary rebuild of `process_symbol`
(`symbol.__class__(disc_left, disc_right)`). -/
def rebuildBinary (symbol dl dr : Expr) : Except PyError Expr :=
  match symbol with
  | .add _ _ => .ok (.add dl dr)
  | .sub _ _ => .ok (.sub dl dr)
  | .mul _ _ => .ok (.mul dl dr)
  | .divOp _ _ => .ok (.divOp dl dr)
  | .pow _ _ => .ok (.pow dl dr)
  | .matmul _ _ => .ok (.matmul dl dr)
  | _ => .error (.notImplementedError "not a binary operator")

/-- The tail of the binary-operator case of `process_symbol`: with both
children discretised, rebuild the operator's class directly when the
parent's domain is empty, else delegate to the domain's spatial method's
`process_binary_operators`. -/
def processBinaryFinish (st : DiscState) (symbol l r dl dr : Expr) :
    Except PyError Expr :=
  if symbol.domainOf = [] then rebuildBinary symbol dl dr
  else
    match symbol.domainOf with
    | [] => .error .indexError
    | d0 :: _ =>
        match smLookup st d0 with
        | none => .error (.keyError d0)
        | some _ => processBinaryOperatorsBase symbol l r dl dr

mutual

/-- `Discretisation.process_symbol`: the recursive node-kind dispatch of
discretisation.py lines 342-453, over the node kinds of this expression
universe.  Binary operators with an empty domain are rebuilt directly and
otherwise delegated to the domain's spatial method; gradient/divergence/
broadcast/concatenation delegate to the finite-volume method; variables
become state vectors via the slice map; scalars, arrays, state vectors and
time are copied; anything else is `NotImplementedError`. -/
def processSymbol (st : DiscState) : Expr → Except PyError Expr
  | .add l r =>
      match processSymbol st l with
      | .error e => .error e
      | .ok dl =>
          match processSymbol st r with
          | .error e => .error e
          | .ok dr => processBinaryFinish st (.add l r) l r dl dr
  | .sub l r =>
      match processSymbol st l with
      | .error e => .error e
      | .ok dl =>
          match processSymbol st r with
          | .error e => .error e
          | .ok dr => processBinaryFinish st (.sub l r) l r dl dr
  | .mul l r =>
      match processSymbol st l with
      | .error e => .error e
      | .ok dl =>
          match processSymbol st r with
          | .error e => .error e
          | .ok dr => processBinaryFinish st (.mul l r) l r dl dr
  | .divOp l r =>
      match processSymbol st l with
      | .error e => .error e
      | .ok dl =>
          match processSymbol st r with
          | .error e => .error e
          | .ok dr => processBinaryFinish st (.divOp l r) l r dl dr
  | .pow l r =>
      match processSymbol st l with
      | .error e => .error e
      | .ok dl =>
          match processSymbol st r with
          | .error e => .error e
          | .ok dr => processBinaryFinish st (.pow l r) l r dl dr
  | .matmul l r =>
      match processSymbol st l with
      | .error e => .error e
      | .ok dl =>
          match processSymbol st r with
          | .error e => .error e
          | .ok dr => processBinaryFinish st (.matmul l r) l r dl dr
  | .grad c =>
      match processSymbol st c with
      | .error e => .error e
      | .ok dc =>
          match c.domainOf with
          | [] => .error .indexError
          | d0 :: _ =>
              match smLookup st d0 with
              | none => .error (.keyError d0)
              | some mesh => fvGradient mesh c dc st.bcs
  | .divergence c =>
      match processSymbol st c with
      | .error e => .error e
      | .ok dc =>
          match c.domainOf with
          | [] => .error .indexError
          | d0 :: _ =>
              match smLookup st d0 with
              | none => .error (.keyError d0)
              | some mesh => fvDivergence mesh c dc st.bcs
  | .broadcast c dom =>
      match processSymbol st c with
      | .error e => .error e
      | .ok dc =>
          match dom with
          | [] => .ok (.mul dc (.vector [1]))
          | d0 :: _ =>
              match smLookup st d0 with
              | none => .error (.keyError d0)
              | some mesh => fvBroadcast mesh dc dom
  | .neg c =>
      match processSymbol st c with
      | .error e => .error e
      | .ok dc => .ok (.neg dc)
  | .absOp c =>
      match processSymbol st c with
      | .error e => .error e
      | .ok dc => .ok (.absOp dc)
  | .nodeToEdge c =>
      match processSymbol st c with
      | .error e => .error e
      | .ok dc => .ok (.nodeToEdge dc)
  | .variableNode i n dom =>
      match dictGet st.ySlices i with
      | none => .error (.keyError n)
      | some s => .ok (.stateVector s dom)
  | .concatenation cs dom =>
      match processSymbols st cs with
      | .error e => .error e
      | .ok ncs =>
          match dom with
          | [] => .error .indexError
          | d0 :: _ =>
              match smLookup st d0 with
              | none => .error (.keyError d0)
              | some mesh =>
                  match domainConcatenation mesh ncs with
                  | .error e => .error e
                  | .ok (conc, _) => .ok conc
  | .numpyConcatenation cs =>
      match processSymbols st cs with
      | .error e => .error e
      | .ok _ => .error .indexError
  | .scalar v => .ok (.scalar v)
  | .vector es => .ok (.vector es)
  | .matrixNode rows => .ok (.matrixNode rows)
  | .stateVector s dom => .ok (.stateVector s dom)
  | .timeNode => .ok .timeNode
  | .bcTuple _ _ => .error (.notImplementedError "Cannot discretise symbol")

/-- `process_symbol` over a child list. -/
def processSymbols (st : DiscState) : List Expr → Except PyError (List Expr)
  | [] => .ok []
  | e :: rest =>
      match processSymbol st e with
      | .error err => .error err
      | .ok d =>
          match processSymbols st rest with
          | .error err => .error err
          | .ok ds => .ok (d :: ds)

end

/-- `Discretisation.process_dict` for `{Variable: equation}` dictionaries:
equations that evaluate to a number are broadcast onto the key's domain
(a bare `Broadcast` node for a domain-free key, the spatial method's
broadcast otherwise) and every value is discretised. -/
def processDict (st : DiscState) :
    List (Expr × Expr) → Except PyError (List (Expr × Expr))
  | [] => .ok []
  | (key, eqn) :: rest =>
      let broadcasted : Except PyError Expr :=
        if evaluatesToNumber eqn then
          if key.domainOf = [] then .ok (.broadcast eqn key.domainOf)
          else
            match key.domainOf with
            | [] => .error .indexError
            | d0 :: _ =>
                match smLookup st d0 with
                | none => .error (.keyError d0)
                | some mesh => fvBroadcast mesh eqn key.domainOf
        else .ok eqn
      match broadcasted with
      | .error e => .error e
      | .ok e2 =>
          match processSymbol st e2 with
          | .error e => .error e
          | .ok v =>
              match processDict st rest with
              | .error e => .error e
              | .ok vs => .ok ((key, v) :: vs)

/-- `Discretisation.process_dict` for the string-keyed `model.variables`
dictionary: string keys skip the broadcast step
(`if not isinstance(eqn_key, str)`). -/
def processDictStr (st : DiscState) :
    List (String × Expr) → Except PyError (List (String × Expr))
  | [] => .ok []
  | (key, eqn) :: rest =>
      match processSymbol st eqn with
      | .error e => .error e
      | .ok v =>
          match processDictStr st rest with
          | .error e => .error e
          | .ok vs => .ok ((key, v) :: vs)

/-- `Discretisation.process_boundary_conditions`: key each entry by the
unknown's id and discretise the per-side expressions, keeping the kinds. -/
def processBoundaryConditions (st : DiscState) :
    List (Expr × SideBCs) → Except PyError (List (ℕ × SideBCs))
  | [] => .ok []
  | (key, bc) :: rest =>
      match key.varId with
      | none => .error (.notImplementedError
          "boundary-condition key outside the modelled data model")
      | some i =>
          match processSymbol st bc.left.1 with
          | .error e => .error e
          | .ok dl =>
              match processSymbol st bc.right.1 with
              | .error e => .error e
              | .ok dr =>
                  match processBoundaryConditions st rest with
                  | .error e => .error e
                  | .ok ds =>
                      .ok ((i, ⟨(dl, bc.left.2), (dr, bc.right.2)⟩) :: ds)

/-- The key symbols of an equation dictionary, in the shape
`set_variable_slices` and `_concatenate_in_order` consume. -/
def toKeySymbol : Expr → Option KeySymbol
  | .variableNode i n d => some (.var ⟨i, n, d⟩)
  | .concatenation cs _ =>
      match cs.mapM (fun c =>
        match c with
        | .variableNode i n dd => some (⟨i, n, dd⟩ : PyVariable)
        | _ => none) with
      | some vs => some (.concat vs)
      | none => none
  | _ => none

/-- `Discretisation._concatenate_in_order` at the expression level: convert
the keys, delegate to the generic slice-ordered concatenation and wrap the
sorted equations in a `NumpyConcatenation`. -/
def concatenateInOrderExpr (y : List (ℕ × PySlice))
    (d : List (Expr × Expr)) (check_complete : Bool) :
    Except PyError Expr :=
  match (d.map Prod.fst).mapM toKeySymbol with
  | none => .error (.notImplementedError
      "key kind outside the modelled data model")
  | some ks =>
      match concatenateInOrderList y (ks.zip (d.map Prod.snd))
          check_complete with
      | .error e => .error e
      | .ok sorted => .ok (.numpyConcatenation sorted)

/-- Pointwise numeric combination with numpy number/array broadcasting. -/
def nvalBinOp (f : ℚ → ℚ → ℚ) : NVal → NVal → Except PyError NVal
  | .num a, .num b => .ok (.num (f a b))
  | .num a, .arr b => .ok (.arr (b.map (fun x => f a x)))
  | .arr a, .num b => .ok (.arr (a.map (fun x => f x b)))
  | .arr a, .arr b =>
      if a.length = b.length then .ok (.arr (List.zipWith f a b))
      else .error (.valueError "operands could not be broadcast together")

mutual

/-- Modelled from the spec: the `evaluate(t, y)` contract for the node
kinds the modelled pipeline produces (the expression-tree base classes are
not all in the source tree).  A state vector slices the flat vector `y`;
`None` for `y` is not subscriptable; a `NumpyConcatenation` concatenates
its children's arrays. -/
def evalExpr (y : Option NVal) : Expr → Except PyError NVal
  | .scalar v => .ok (.num v)
  | .vector es => .ok (.arr es)
  | .stateVector s _ =>
      match y with
      | some (.arr ys) => .ok (.arr ((ys.drop s.start).take (s.stop - s.start)))
      | _ => .error (.typeError "y must be an array")
  | .add l r =>
      match evalExpr y l with
      | .error e => .error e
      | .ok a =>
          match evalExpr y r with
          | .error e => .error e
          | .ok b => nvalBinOp (fun x z => x + z) a b
  | .sub l r =>
      match evalExpr y l with
      | .error e => .error e
      | .ok a =>
          match evalExpr y r with
          | .error e => .error e
          | .ok b => nvalBinOp (fun x z => x - z) a b
  | .mul l r =>
      match evalExpr y l with
      | .error e => .error e
      | .ok a =>
          match evalExpr y r with
          | .error e => .error e
          | .ok b => nvalBinOp (fun x z => x * z) a b
  | .divOp l r =>
      match evalExpr y l with
      | .error e => .error e
      | .ok a =>
          match evalExpr y r with
          | .error e => .error e
          | .ok b => nvalBinOp (fun x z => x / z) a b
  | .neg c =>
      match evalExpr y c with
      | .error e => .error e
      | .ok (.num a) => .ok (.num (-a))
      | .ok (.arr a) => .ok (.arr (a.map Neg.neg))
  | .numpyConcatenation cs =>
      match evalExprs y cs with
      | .error e => .error e
      | .ok vs =>
          match vs.mapM (fun v =>
            match v with
            | NVal.arr a => some a
            | NVal.num _ => none) with
          | none => .error (.valueError "zero-dimensional arrays cannot be concatenated")
          | some arrs => .ok (.arr arrs.flatten)
  | _ => .error (.notImplementedError "evaluate not modelled for this node kind")

/-- Evaluation over a child list. -/
def evalExprs (y : Option NVal) : List Expr → Except PyError (List NVal)
  | [] => .ok []
  | e :: rest =>
      match evalExpr y e with
      | .error err => .error err
      | .ok v =>
          match evalExprs y rest with
          | .error err => .error err
          | .ok vs => .ok (v :: vs)

end

/-- The `n × n` identity, as built by `eye`/`kron` in
`SpatialMethod.mass_matrix`. -/
def identityMatrix (n : ℕ) : List (List ℚ) :=
  (List.range n).map (fun i =>
    (List.range n).map (fun j => if i = j then 1 else 0))

/-- The `n × n` zero block `csr_matrix((n, n))` for algebraic equations. -/
def zerosMatrix (n : ℕ) : List (List ℚ) :=
  (List.range n).map (fun _ => (List.range n).map (fun _ => 0))

/-- `scipy.sparse.block_diag` on dense blocks. -/
def blockDiag : List (List (List ℚ)) → List (List ℚ)
  | [] => []
  | b :: rest =>
      let restM := blockDiag rest
      let restCols := (restM.headD []).length
      let bCols := (b.headD []).length
      b.map (fun row => row ++ List.replicate restCols 0)
        ++ restM.map (fun row => List.replicate bCols 0 ++ row)

/-- `SpatialMethod.mass_matrix`: the identity sized to the combined
submesh's primary point count, Kronecker-extended over the secondary
dimension (`kron(eye(sec_pts), eye(n)) = eye(sec_pts * n)`). -/
def smMassMatrix (mesh : FVMesh) (symbol : Expr) :
    Except PyError (List (List ℚ)) :=
  match mesh.combineList symbol.domainOf with
  | none => .error (.keyError "combine_submeshes")
  | some subs =>
      match subs.head? with
      | none => .error .indexError
      | some s0 => .ok (identityMatrix (subs.length * s0.npts))

/-- The differential-equation mass blocks of `create_mass_matrix`: `1.0`
for a domain-free unknown, the spatial method's mass matrix otherwise. -/
def massList (st : DiscState) : List Expr → Except PyError (List (List (List ℚ)))
  | [] => .ok []
  | v :: rest =>
      let blk : Except PyError (List (List ℚ)) :=
        if v.domainOf = [] then .ok [[1]]
        else
          match v.domainOf with
          | [] => .error .indexError
          | d0 :: _ =>
              match smLookup st d0 with
              | none => .error (.keyError d0)
              | some mesh => smMassMatrix mesh v
      match blk with
      | .error e => .error e
      | .ok b =>
          match massList st rest with
          | .error e => .error e
          | .ok bs => .ok (b :: bs)

/-- `Discretisation.create_mass_matrix(model)`: sort the rhs unknowns by
their slices, emit one mass block each, and — when any algebraic equations
exist — read `model.concatenated_initial_conditions` (a property, `None`
until assigned) and `model.concatenated_algebraic` (an attribute that does
not exist until assigned: reading it raises `AttributeError`), size the
zero block by the evaluated algebraic residual, and block-diagonal the
result. -/
def createMassMatrix (st : DiscState) (model : BaseModel) :
    Except PyError Expr :=
  match (model.rhs.map Prod.fst).mapM toKeySymbol with
  | none => .error (.notImplementedError
      "key kind outside the modelled data model")
  | some ks =>
      match slicesOf st.ySlices ks with
      | .error e => .error e
      | .ok slices =>
          let sortedVars := ((slices.zip (model.rhs.map Prod.fst)).insertionSort
            pairLe).map Prod.snd
          match massList st sortedVars with
          | .error e => .error e
          | .ok blocks =>
              if model.algebraic.isEmpty then
                .ok (.matrixNode (blockDiag blocks))
              else
                let y0 := model.concatenated_initial_conditions
                match model.concatenated_algebraic with
                | none => .error (.attributeError "concatenated_algebraic")
                | some calg =>
                    match evalExpr y0 calg with
                    | .error e => .error e
                    | .ok (.num _) => .error (.attributeError "shape")
                    | .ok (.arr a) =>
                        .ok (.matrixNode (blockDiag
                          (blocks ++ [zerosMatrix a.length])))

/-- The length reported by `.shape[0]` of an evaluation result. -/
def nvalLen : NVal → Except PyError ℕ
  | .num _ => .error (.attributeError "shape")
  | .arr a => .ok a.length

/-- The per-equation part of `check_model`: every discretised initial
condition must evaluate to an array. -/
def icsArrayCheck : List (Expr × Expr) → Except PyError Unit
  | [] => .ok ()
  | (_, eqn) :: rest =>
      match evalExpr none eqn with
      | .error e => .error e
      | .ok (.num _) => .error (.modelError
          "initial_conditions must be numpy array after discretisation" [])
      | .ok (.arr _) => icsArrayCheck rest

/-- The rhs-shape part of `check_model`: each discretised rhs equation's
shape at `y0` must equal its initial condition's shape. -/
def rhsShapeCheck (y0 : Option NVal) (ics : List (Expr × Expr)) :
    List (Expr × Expr) → Except PyError Unit
  | [] => .ok ()
  | (var, eqn) :: rest =>
      match evalExpr y0 eqn with
      | .error e => .error e
      | .ok v1 =>
          match (ics.find? (fun q => Expr.beq q.1 var)).map Prod.snd with
          | none => .error (.keyError var.displayName)
          | some icEqn =>
              match evalExpr none icEqn with
              | .error e => .error e
              | .ok v2 =>
                  match nvalLen v1, nvalLen v2 with
                  | .ok n1, .ok n2 =>
                      if n1 = n2 then rhsShapeCheck y0 ics rest
                      else .error (.modelError
                        "rhs and initial_conditions must have the same shape" [])
                  | .error e, _ => .error e
                  | _, .error e => .error e

/-- The variables part of `check_model`: an output variable named after an
rhs key must evaluate to the rhs shape, unless it is a concatenation or a
broadcast (a multiplication by an all-ones vector). -/
def variablesShapeCheck (y0 : Option NVal) (varsDict : List (String × Expr))
    (rhs : List (Expr × Expr)) : List (Expr × Expr) → Except PyError Unit
  | [] => .ok ()
  | (var, eqn) :: rest =>
      match (varsDict.find? (fun q => q.1 = var.displayName)).map Prod.snd with
      | none => variablesShapeCheck y0 varsDict rhs rest
      | some v =>
          let lenient : Bool :=
            match v with
            | .concatenation _ _ => true
            | .mul _ (.vector es) => es.all (fun x => x = 1)
            | _ => false
          if lenient then variablesShapeCheck y0 varsDict rhs rest
          else
            match evalExpr y0 eqn, evalExpr y0 v with
            | .ok v1, .ok v2 =>
                match nvalLen v1, nvalLen v2 with
                | .ok n1, .ok n2 =>
                    if n1 = n2 then variablesShapeCheck y0 varsDict rhs rest
                    else .error (.modelError
                      "variable and its eqn must have the same shape" [])
                | .error e, _ => .error e
                | _, .error e => .error e
            | .error e, _ => .error e
            | _, .error e => .error e

/-- `Discretisation.check_model` on the discretised model. -/
def checkModel (model : BaseModel) : Except PyError Unit :=
  match icsArrayCheck model.initial_conditions with
  | .error e => .error e
  | .ok () =>
      match model.concatenated_initial_conditions with
      | some (NVal.arr y0arr) =>
          match rhsShapeCheck (some (.arr y0arr))
              model.initial_conditions model.rhs with
          | .error e => .error e
          | .ok () =>
              match model.concatenated_rhs, model.concatenated_algebraic with
              | some crhs, some calg =>
                  match evalExpr (some (.arr y0arr)) crhs,
                      evalExpr (some (.arr y0arr)) calg with
                  | .ok v1, .ok v2 =>
                      match nvalLen v1, nvalLen v2 with
                      | .ok n1, .ok n2 =>
                          if n1 + n2 = y0arr.length then
                            variablesShapeCheck (some (.arr y0arr))
                              model.variablesDict model.rhs model.rhs
                          else .error (.modelError
                            "Concatenation of (rhs, algebraic) and initial_conditions must have the same shape" [])
                      | .error e, _ => .error e
                      | _, .error e => .error e
                  | .error e, _ => .error e
                  | _, .error e => .error e
              | none, _ => .error (.attributeError "evaluate")
              | _, none => .error (.attributeError "concatenated_algebraic")
      | _ => .error (.modelError
          "Concatenated initial_conditions must be numpy array" [])

/-- A blank `pybamm.BaseModel()`, as created for the not-inplace mode. -/
def BaseModel.blank : BaseModel := {}

/-- `Discretisation.process_model(model, inplace)`: allocate slices from
the rhs and algebraic keys, lower the boundary conditions, pick the target
model object (the input itself when `inplace`, a blank model otherwise),
then discretise and store initial conditions, rhs/algebraic (with their
slice-ordered concatenations), variables and events, build the mass matrix
— passing the ORIGINAL `model` binding to `create_mass_matrix` — and run
`check_model` on the target.  Returns the final states of the input model
and of the returned discretised model. -/
def processModel (sm : DiscSM) (model : BaseModel) (inplace : Bool) :
    Except PyError (BaseModel × BaseModel) :=
  match (model.rhs.map Prod.fst ++ model.algebraic.map Prod.fst).mapM
      toKeySymbol with
  | none => .error (.notImplementedError
      "key kind outside the modelled data model")
  | some ks =>
      match setVariableSlices sm.slicing ks with
      | .error e => .error e
      | .ok ySlices =>
          let st0 : DiscState := ⟨sm, ySlices, []⟩
          match processBoundaryConditions st0 model.boundary_conditions with
          | .error e => .error e
          | .ok bcs =>
              let st : DiscState := ⟨sm, ySlices, bcs⟩
              match processDict st model.initial_conditions with
              | .error e => .error e
              | .ok ics =>
                  match concatenateInOrderExpr ySlices ics true with
                  | .error e => .error e
                  | .ok icsConcatExpr =>
                      match evalExpr none icsConcatExpr with
                      | .error e => .error e
                      | .ok icsVal =>
                          let md1 : BaseModel :=
                            { (if inplace then model else BaseModel.blank) with
                              initial_conditions := ics,
                              concatenated_initial_conditions := some icsVal }
                          let read1 := if inplace then md1 else model
                          match processDict st read1.rhs with
                          | .error e => .error e
                          | .ok rhs =>
                              match concatenateInOrderExpr ySlices rhs false with
                              | .error e => .error e
                              | .ok concRhs =>
                                  match processDict st read1.algebraic with
                                  | .error e => .error e
                                  | .ok alg =>
                                      match concatenateInOrderExpr ySlices alg
                                          false with
                                      | .error e => .error e
                                      | .ok concAlg =>
                                        let md2 : BaseModel :=
                                          { md1 with
                                            rhs := rhs,
                                            concatenated_rhs := some concRhs,
                                            algebraic := alg,
                                            concatenated_algebraic :=
                                              some concAlg }
                                        let read2 :=
                                          if inplace then md2 else model
                                        match processDictStr st
                                            read2.variablesDict with
                                        | .error e => .error e
                                        | .ok vars =>
                                          let md3 : BaseModel :=
                                            { md2 with variablesDict := vars }
                                          let read3 :=
                                            if inplace then md3 else model
                                          match processSymbols st
                                              read3.events with
                                          | .error e => .error e
                                          | .ok evs =>
                                            let md4 : BaseModel :=
                                              { md3 with events := evs }
                                            let massSource :=
                                              if inplace then md4 else model
                                            match createMassMatrix st
                                                massSource with
                                            | .error e => .error e
                                            | .ok mass =>
                                              let md5 : BaseModel :=
                                                { md4 with
                                                  mass_matrix := some mass }
                                              match checkModel md5 with
                                              | .error e => .error e
                                              | .ok () =>
                                                .ok (if inplace then
                                                    (md5, md5)
                                                  else (model, md5))

/-! Concrete inputs for the model-level claims. -/

/-- A domain-free unknown `c` (C8, id 21). -/
def cVar8 : Expr := .variableNode 21 "c" []

/-- A domain-free unknown `d` (C8, id 22) that never appears as a key. -/
def dVar8 : Expr := .variableNode 22 "d" []

/-- C8 counterexample model: `c` keys both rhs and algebraic (repeated
key), and `d` appears in an equation without being a key (dangling). -/
def modelBoth8 : BaseModel :=
  { rhs := [(cVar8, dVar8)], algebraic := [(cVar8, .scalar 0)] }

/-- C8 witness model: only the dangling variable `d`. -/
def modelUnder8 : BaseModel := { rhs := [(cVar8, dVar8)] }

/-- A domain-free unknown `c` (C9, id 31). -/
def cVar9 : Expr := .variableNode 31 "c" []

/-- A domain-free unknown `a` (C9, id 32), governed algebraically. -/
def aVar9 : Expr := .variableNode 32 "a" []

/-- C9 failing model: one differential and one algebraic unknown, with
complete initial conditions. -/
def modelC9 : BaseModel :=
  { rhs := [(cVar9, .scalar (-1))],
    algebraic := [(aVar9, .scalar 0)],
    initial_conditions := [(cVar9, .scalar 1), (aVar9, .scalar 0)] }

/-- C9 registry: no spatial domains are needed (all unknowns are
domain-free). -/
def smC9 : DiscSM := ⟨⟨[]⟩, []⟩

/-- Two-cell separator submesh (C10). -/
def subSep10 : FVSubmesh := ⟨2, [1/4, 3/4], [0, 1/2, 1], [1/2], [1/2, 1/2]⟩

/-- Mesh for the C10 witness. -/
def meshSM10 : FVMesh :=
  ⟨[("separator", subSep10)], fun _ => none,
   fun doms => if doms = ["separator"] then some [subSep10] else none⟩

/-- A single discretised child on the separator (C10). -/
def child10 : Expr := .stateVector ⟨0, 2⟩ ["separator"]

/-! Concrete inputs for the finite-volume claims. -/

/-- Two-cell combined submesh on the positive particle domain. -/
def subPosCombined : FVSubmesh :=
  ⟨2, [1/4, 3/4], [0, 1/2, 1], [1/2], [1/2, 1/2]⟩

/-- Mesh with only the positive particle domain. -/
def meshPos : FVMesh :=
  ⟨[("positive particle", subPosCombined)],
   fun doms => if doms = ["positive particle"] then some subPosCombined
     else none,
   fun _ => none⟩

/-- A concentration unknown on the positive particle. -/
def cPosVar : Expr := .variableNode 5 "c" ["positive particle"]

/-- Its discretised state vector. -/
def cPosDisc : Expr := .stateVector ⟨0, 2⟩ ["positive particle"]

/-- Two-cell combined submesh on the negative particle domain. -/
def subNegCombined : FVSubmesh :=
  ⟨2, [1/4, 3/4], [0, 1/2, 1], [1/2], [1/2, 1/2]⟩

/-- Mesh with only the negative particle domain. -/
def meshNeg : FVMesh :=
  ⟨[("negative particle", subNegCombined)],
   fun doms => if doms = ["negative particle"] then some subNegCombined
     else none,
   fun _ => none⟩

/-- A concentration unknown on the negative particle. -/
def cNegPVar : Expr := .variableNode 6 "c_n" ["negative particle"]

/-- Its discretised state vector. -/
def cNegPDisc : Expr := .stateVector ⟨0, 2⟩ ["negative particle"]

/-- Three-cell submesh on the negative electrode (C3). -/
def subC3plain : FVSubmesh := ⟨3, [], [], [1/2, 1/2], []⟩

/-- Five-point extended submesh, after ghost cells are appended (C3). -/
def subC3ext : FVSubmesh := ⟨5, [], [], [1/4, 1/4, 1/4, 1/4], []⟩

/-- Mesh knowing both the plain and the ghost-extended C3 domains. -/
def meshC3 : FVMesh :=
  ⟨[("negative electrode", subC3plain)],
   fun doms =>
     if doms = ["negative electrode"] then some subC3plain
     else if doms = ["negative electrode_left ghost cell",
         "negative electrode", "negative electrode_right ghost cell"] then
       some subC3ext
     else none,
   fun _ => none⟩

/-- The gradient operand for C3. -/
def cC3Var : Expr := .variableNode 7 "c" ["negative electrode"]

/-- Its discretised state vector. -/
def cC3Disc : Expr := .stateVector ⟨0, 3⟩ ["negative electrode"]

/-- A purely Neumann boundary-condition table for `cC3Var`, as
`process_boundary_conditions` stores it. -/
def bcsNeumannC3 : List (ℕ × SideBCs) :=
  [(7, ⟨(.scalar 0, "Neumann"), (.scalar 2, "Neumann")⟩)]

/-- A diffusivity operand with no gradient in its subtree (C5). -/
def dVarC5 : Expr := .variableNode 11 "D" ["negative electrode"]

/-- A gradient operand (C5). -/
def gradC5 : Expr := .grad (.variableNode 12 "c" ["negative electrode"])

/-- The binary operator `D * grad(c)` (C5). -/
def binC5 : Expr := .mul dVarC5 gradC5

/-- Discretised left child for C5. -/
def discDC5 : Expr := .stateVector ⟨0, 3⟩ ["negative electrode"]

/-- Discretised right child for C5. -/
def discGradC5 : Expr :=
  .matmul (.matrixNode []) (.stateVector ⟨3, 6⟩ ["negative electrode"])

/-- Concrete registry for the C1 witness: a finite-volume method registered
on two electrode domains with 10- and 5-point submeshes. -/
def regC1 : SlicingRegistry :=
  ⟨[("negative electrode", [("negative electrode", [⟨10⟩])]),
    ("separator", [("separator", [⟨5⟩])])]⟩

/-- Concrete unknowns for the C1 witness: `c` over two subdomains, then the
domain-less scalar unknown `T`. -/
def varsC1 : List KeySymbol :=
  [.var ⟨1, "c", ["negative electrode", "separator"]⟩, .var ⟨2, "T", []⟩]

/-- Successful-lookup view of `regC1`. -/
def subsC1 : String → List BroadcastSubmesh := fun dom =>
  if dom = "negative electrode" then [⟨10⟩]
  else if dom = "separator" then [⟨5⟩] else []

theorem dictInsert_of_not_mem (d : List (ℕ × PySlice)) (k : ℕ) (v : PySlice)
    (h : k ∉ dictKeys d) : dictInsert d k v = d ++ [(k, v)] := by
  induction d with
  | nil => rfl
  | cons p rest ih =>
      have h1 : ¬(p.1 = k) := fun he => h (by simp [dictKeys, he])
      have h2 : k ∉ dictKeys rest := fun hm => h (by simp [dictKeys] at hm ⊢; right; exact hm)
      simp only [dictInsert, if_neg h1]
      rw [ih h2]
      simp

theorem insertAll_eq_append (ps : List (ℕ × PySlice)) :
    ∀ d : List (ℕ × PySlice),
    ((d ++ ps).map Prod.fst).Nodup → insertAll d ps = d ++ ps := by
  induction ps with
  | nil => intro d _; simp [insertAll]
  | cons p rest ih =>
      intro d hnd
      have hmaps : ((d.map Prod.fst) ++ ((p :: rest).map Prod.fst)).Nodup := by
        simpa using hnd
      obtain ⟨hd1, hd2, hdisj⟩ := List.nodup_append.mp hmaps
      have hk : p.1 ∉ dictKeys d := fun hm =>
        (hdisj (by simpa [dictKeys] using hm)) (by simp)
      have hstep : insertAll d (p :: rest) = insertAll (d ++ [p]) rest := by
        simp only [insertAll, List.foldl_cons]
        rw [dictInsert_of_not_mem d p.1 p.2 hk]
      rw [hstep, ih (d ++ [p]) (by simpa using hnd)]
      simp

theorem dictGet_of_mem_nodup (ps : List (ℕ × PySlice))
    (hnd : (ps.map Prod.fst).Nodup) (k : ℕ) (s : PySlice)
    (hmem : (k, s) ∈ ps) : dictGet ps k = some s := by
  induction ps with
  | nil => simp at hmem
  | cons p rest ih =>
      simp only [List.map_cons, List.nodup_cons] at hnd
      rcases List.mem_cons.mp hmem with heq | htail
      · subst heq; simp [dictGet]
      · have hne : ¬(p.1 = k) := by
          intro hk
          apply hnd.1
          rw [hk]
          exact List.mem_map.mpr ⟨(k, s), htail, rfl⟩
        simp only [dictGet, if_neg hne]
        exact ih hnd.2 htail

theorem submeshPointsTotal_eq (subs : List BroadcastSubmesh) :
    submeshPointsTotal subs = (subs.map BroadcastSubmesh.npts_for_broadcast).sum := by
  have gen : ∀ (l : List BroadcastSubmesh) (a : ℕ),
      l.foldl (fun a s => a + s.npts_for_broadcast) a
        = a + (l.map BroadcastSubmesh.npts_for_broadcast).sum := by
    intro l
    induction l with
    | nil => intro a; simp
    | cons s t iht => intro a; simp [iht, Nat.add_assoc]
  simpa [submeshPointsTotal] using gen subs 0

theorem variableSizeLoop_eq (reg : SlicingRegistry)
    (subs : String → List BroadcastSubmesh) :
    ∀ (l : List String)
      (_ : ∀ dom ∈ l, reg.submeshes dom = .ok (subs dom)) (acc : ℕ),
    variableSizeLoop reg l acc
      = .ok (acc + (l.map (fun dom => submeshPointsTotal (subs dom))).sum) := by
  intro l
  induction l with
  | nil => intro _ acc; simp [variableSizeLoop]
  | cons dom rest ih =>
      intro hl acc
      have hdom := hl dom (by simp)
      simp only [variableSizeLoop, hdom]
      rw [ih (fun d hd => hl d (by simp [hd]))]
      simp [Nat.add_assoc]

theorem variableSize_eq (reg : SlicingRegistry)
    (subs : String → List BroadcastSubmesh) (v : PyVariable)
    (h : ∀ dom ∈ v.domain, reg.submeshes dom = .ok (subs dom)) :
    variableSize reg v = .ok (sizeOfVariable subs v) := by
  unfold variableSize sizeOfVariable
  by_cases hd : v.domain = []
  · simp [hd]
  · simp only [if_neg hd]
    rw [variableSizeLoop_eq reg subs v.domain h 0]
    simp [submeshPointsTotal_eq]

theorem setVariableSlicesLoop_eq (reg : SlicingRegistry)
    (subs : String → List BroadcastSubmesh) :
    ∀ (l : List PyVariable)
      (_ : ∀ v ∈ l, ∀ dom ∈ v.domain, reg.submeshes dom = .ok (subs dom))
      (start : ℕ) (d : List (ℕ × PySlice)),
    setVariableSlicesLoop reg l start d
      = .ok (insertAll d
          ((l.map PyVariable.id).zip
            (consecutiveSlices start (l.map (sizeOfVariable subs))))) := by
  intro l
  induction l with
  | nil => intro _ start d; simp [setVariableSlicesLoop, insertAll, consecutiveSlices]
  | cons v rest ih =>
      intro hl start d
      have hv := variableSize_eq reg subs v (hl v (by simp))
      simp only [setVariableSlicesLoop, hv]
      rw [ih (fun w hw => hl w (by simp [hw]))]
      simp [consecutiveSlices, insertAll]

theorem consecutiveSlices_length (start : ℕ) (sizes : List ℕ) :
    (consecutiveSlices start sizes).length = sizes.length := by
  induction sizes generalizing start with
  | nil => rfl
  | cons s rest ih => simp [consecutiveSlices, ih]

theorem consecutiveSlices_get (sizes : List ℕ) :
    ∀ (start : ℕ) (i : ℕ) (h : i < (consecutiveSlices start sizes).length),
    (consecutiveSlices start sizes).get ⟨i, h⟩
      = ⟨start + (sizes.take i).sum, start + (sizes.take (i + 1)).sum⟩ := by
  induction sizes with
  | nil => intro start i h; simp [consecutiveSlices] at h
  | cons s rest ih =>
      intro start i h
      match i with
      | 0 => simp [consecutiveSlices]
      | Nat.succ j =>
          have h' : j < (consecutiveSlices (start + s) rest).length := by
            simpa [consecutiveSlices] using h
          simp only [consecutiveSlices, List.get_cons_succ]
          rw [ih (start + s) j h']
          simp [List.take_succ_cons, Nat.add_assoc]

theorem mem_consecutiveSlices_bounds (sizes : List ℕ) :
    ∀ (start : ℕ) (s : PySlice), s ∈ consecutiveSlices start sizes →
    start ≤ s.start ∧ s.stop ≤ start + sizes.sum := by
  induction sizes with
  | nil => intro start s h; simp [consecutiveSlices] at h
  | cons sz rest ih =>
      intro start s h
      rcases List.mem_cons.mp h with heq | htail
      · subst heq
        exact ⟨le_refl _, by simp [Nat.add_assoc, Nat.le_add_right]⟩
      · have := ih (start + sz) s htail
        exact ⟨le_trans (Nat.le_add_right _ _) this.1,
          by simpa [Nat.add_assoc] using this.2⟩

theorem consecutiveSlices_pairwise (sizes : List ℕ) :
    ∀ start : ℕ,
    (consecutiveSlices start sizes).Pairwise (fun a b => a.stop ≤ b.start) := by
  induction sizes with
  | nil => intro start; simp [consecutiveSlices]
  | cons sz rest ih =>
      intro start
      simp only [consecutiveSlices, List.pairwise_cons]
      exact ⟨fun s hs => (mem_consecutiveSlices_bounds rest (start + sz) s hs).1,
        ih (start + sz)⟩

theorem consecutiveSlices_tile (sizes : List ℕ) :
    ∀ (start k : ℕ), (start ≤ k ∧ k < start + sizes.sum) ↔
      ∃ s ∈ consecutiveSlices start sizes, s.start ≤ k ∧ k < s.stop := by
  induction sizes with
  | nil => intro start k; simp [consecutiveSlices]
  | cons sz rest ih =>
      intro start k
      constructor
      · rintro ⟨hle, hlt⟩
        by_cases hk : k < start + sz
        · exact ⟨⟨start, start + sz⟩, by simp [consecutiveSlices], hle, hk⟩
        · push_neg at hk
          have : start + sz ≤ k ∧ k < (start + sz) + rest.sum :=
            ⟨hk, by simpa [Nat.add_assoc] using hlt⟩
          obtain ⟨s, hs, hks⟩ := (ih (start + sz) k).mp this
          exact ⟨s, by simp [consecutiveSlices, hs], hks⟩
      · rintro ⟨s, hs, hks⟩
        rcases List.mem_cons.mp hs with heq | htail
        · subst heq
          refine ⟨hks.1, lt_of_lt_of_le hks.2 ?_⟩
          simp [Nat.add_assoc, Nat.le_add_right]
        · have hb := mem_consecutiveSlices_bounds rest (start + sz) s htail
          constructor
          · exact le_trans (le_trans (Nat.le_add_right _ _) hb.1) hks.1
          · exact lt_of_lt_of_le hks.2 (by simpa [Nat.add_assoc] using hb.2)

/-- C1: the slot allocator unpacks concatenation keys in order and assigns
each unknown a half-open slice of length 1 (empty domain) or the
`npts_for_broadcast` total of its subdomains' submeshes; slices in input
order start at 0, are consecutive (each start is the prefix sum of earlier
sizes), pairwise non-overlapping, and tile `[0, N)`. -/
theorem set_variable_slices_spec (reg : SlicingRegistry) (vars : List KeySymbol)
    (subs : String → List BroadcastSubmesh)
    (hsubs : ∀ v ∈ unpackVariables vars, ∀ dom ∈ v.domain,
      reg.submeshes dom = .ok (subs dom))
    (hnodup : ((unpackVariables vars).map PyVariable.id).Nodup) :
    ∃ y, setVariableSlices reg vars = .ok y ∧
      (consecutiveSlices 0
        ((unpackVariables vars).map (sizeOfVariable subs))).length
        = (unpackVariables vars).length ∧
      (∀ (i : ℕ) (h1 : i < (unpackVariables vars).length)
          (h2 : i < (consecutiveSlices 0
            ((unpackVariables vars).map (sizeOfVariable subs))).length),
        dictGet y (((unpackVariables vars).get ⟨i, h1⟩).id)
          = some ((consecutiveSlices 0
              ((unpackVariables vars).map (sizeOfVariable subs))).get ⟨i, h2⟩) ∧
        ((consecutiveSlices 0
            ((unpackVariables vars).map (sizeOfVariable subs))).get ⟨i, h2⟩).start
          = (((unpackVariables vars).map (sizeOfVariable subs)).take i).sum ∧
        ((consecutiveSlices 0
            ((unpackVariables vars).map (sizeOfVariable subs))).get ⟨i, h2⟩).stop
          = ((consecutiveSlices 0
              ((unpackVariables vars).map (sizeOfVariable subs))).get ⟨i, h2⟩).start
            + sizeOfVariable subs ((unpackVariables vars).get ⟨i, h1⟩)) ∧
      (consecutiveSlices 0
        ((unpackVariables vars).map (sizeOfVariable subs))).Pairwise
          (fun a b => a.stop ≤ b.start) ∧
      (∀ k : ℕ, k < ((unpackVariables vars).map (sizeOfVariable subs)).sum ↔
        ∃ s ∈ consecutiveSlices 0
          ((unpackVariables vars).map (sizeOfVariable subs)),
          s.start ≤ k ∧ k < s.stop) := by
  have hloop := setVariableSlicesLoop_eq reg subs (unpackVariables vars) hsubs 0 []
  have hlen : (consecutiveSlices 0
      ((unpackVariables vars).map (sizeOfVariable subs))).length
      = (unpackVariables vars).length := by
    rw [consecutiveSlices_length, List.length_map]
  have hmapfst : ((((unpackVariables vars).map PyVariable.id).zip
      (consecutiveSlices 0 ((unpackVariables vars).map (sizeOfVariable subs)))).map
        Prod.fst) = (unpackVariables vars).map PyVariable.id :=
    List.map_fst_zip _ _ (by rw [List.length_map, hlen])
  have hzip_nodup : ((((unpackVariables vars).map PyVariable.id).zip
      (consecutiveSlices 0 ((unpackVariables vars).map (sizeOfVariable subs)))).map
        Prod.fst).Nodup := by
    rw [hmapfst]; exact hnodup
  have hins := insertAll_eq_append
    (((unpackVariables vars).map PyVariable.id).zip
      (consecutiveSlices 0 ((unpackVariables vars).map (sizeOfVariable subs)))) []
    (by simpa using hzip_nodup)
  have hziplen : (((unpackVariables vars).map PyVariable.id).zip
      (consecutiveSlices 0
        ((unpackVariables vars).map (sizeOfVariable subs)))).length
      = (unpackVariables vars).length := by
    rw [List.length_zip, List.length_map, hlen, Nat.min_self]
  refine ⟨((unpackVariables vars).map PyVariable.id).zip
      (consecutiveSlices 0 ((unpackVariables vars).map (sizeOfVariable subs))),
    ?_, hlen, ?_, consecutiveSlices_pairwise _ 0, ?_⟩
  · unfold setVariableSlices
    rw [hloop, hins]
    simp
  · intro i h1 h2
    refine ⟨?_, ?_, ?_⟩
    · apply dictGet_of_mem_nodup _ hzip_nodup
      have h3 : i < (((unpackVariables vars).map PyVariable.id).zip
          (consecutiveSlices 0
            ((unpackVariables vars).map (sizeOfVariable subs)))).length := by
        rw [hziplen]; exact h1
      have hm := List.getElem_mem h3
      rw [List.getElem_zip, List.getElem_map] at hm
      simpa [List.get_eq_getElem] using hm
    · rw [consecutiveSlices_get]
      simp
    · rw [consecutiveSlices_get]
      simp only [Nat.zero_add]
      rw [List.sum_take_succ _ i (by rw [List.length_map]; exact h1)]
      simp [List.get_eq_getElem, List.getElem_map]
  · intro k
    simpa using consecutiveSlices_tile
      ((unpackVariables vars).map (sizeOfVariable subs)) 0 k

/-- Witness for C1 at a concrete two-variable model: unknown `c` on
`["negative electrode", "separator"]` (10 + 5 broadcast points) followed by
a domain-less unknown `T`, giving slices `[0,15)` and `[15,16)`. -/
theorem set_variable_slices_spec_witness :
    (∃ y, setVariableSlices regC1 varsC1 = .ok y) ∧
      setVariableSlices regC1 varsC1
        = .ok [(1, ⟨0, 15⟩), (2, ⟨15, 16⟩)] :=
  ⟨(set_variable_slices_spec regC1 varsC1 subsC1 (by decide) (by decide)).elim
    (fun y h => ⟨y, h.1⟩), by decide⟩

theorem slicesOf_eq_map (y : List (ℕ × PySlice)) (σ : KeySymbol → PySlice) :
    ∀ (ks : List KeySymbol),
    (∀ k ∈ ks, concatSliceOf y k = .ok (σ k)) →
    slicesOf y ks = .ok (ks.map σ) := by
  intro ks
  induction ks with
  | nil => intro _; simp [slicesOf]
  | cons k rest ih =>
      intro h
      have hk := h k (by simp)
      simp only [slicesOf, hk]
      rw [ih (fun k' hk' => h k' (by simp [hk']))]
      simp

theorem sorted_perm_unique {β : Type} :
    ∀ (l₁ l₂ : List (PySlice × β)), l₁.Perm l₂ →
    l₁.Sorted pairLe → l₂.Sorted pairLe →
    (l₁.map (fun p => p.1.start)).Nodup → l₁ = l₂ := by
  intro l₁
  induction l₁ with
  | nil => intro l₂ hperm _ _ _; exact (hperm.nil_eq).symm ▸ rfl
  | cons p t ih =>
      intro l₂ hperm hs₁ hs₂ hnd
      match l₂ with
      | [] => exact absurd hperm.symm.nil_eq (by simp)
      | q :: t₂ =>
          have hpq : p = q := by
            by_contra hne
            have hp2 : p ∈ q :: t₂ := hperm.subset (by simp)
            have hq1 : q ∈ p :: t := hperm.symm.subset (by simp)
            have hpt2 : p ∈ t₂ := by
              rcases List.mem_cons.mp hp2 with h | h
              · exact absurd h hne
              · exact h
            have hqt : q ∈ t := by
              rcases List.mem_cons.mp hq1 with h | h
              · exact absurd h.symm hne
              · exact h
            have h1 : pairLe p q := (List.sorted_cons.mp hs₁).1 q hqt
            have h2 : pairLe q p := (List.sorted_cons.mp hs₂).1 p hpt2
            have hstarts : p.1.start = q.1.start := by
              unfold pairLe sliceLe at h1 h2; omega
            have : q.1.start ∈ t.map (fun r => r.1.start) :=
              List.mem_map.mpr ⟨q, hqt, rfl⟩
            rw [← hstarts] at this
            exact (List.nodup_cons.mp (by simpa using hnd)).1 this
          subst hpq
          have htperm : t.Perm t₂ := hperm.cons_inv
          rw [ih t₂ htperm (List.sorted_cons.mp hs₁).2
            (List.sorted_cons.mp hs₂).2
            (List.Nodup.of_cons (by simpa using hnd))]

/-- C2: `_concatenate_in_order` (with the completeness check off) returns
the equations sorted by their slices — ascending in slice `(start, stop)` —
and the result is invariant under permuting the dictionary's iteration
order; the output is a permutation of the dictionary's values. -/
theorem concatenate_in_order_sorted {β : Type} (y : List (ℕ × PySlice))
    (d₁ d₂ : List (KeySymbol × β)) (σ : KeySymbol → PySlice)
    (hσ : ∀ k ∈ d₁.map Prod.fst, concatSliceOf y k = .ok (σ k))
    (hperm : d₁.Perm d₂)
    (hnodup : (d₁.map (fun p => (σ p.1).start)).Nodup) :
    concatenateInOrderList y d₁ false
      = .ok (((d₁.map (fun p => (σ p.1, p.2))).insertionSort pairLe).map
          Prod.snd) ∧
    concatenateInOrderList y d₂ false = concatenateInOrderList y d₁ false ∧
    List.Sorted pairLe ((d₁.map (fun p => (σ p.1, p.2))).insertionSort pairLe) ∧
    (((d₁.map (fun p => (σ p.1, p.2))).insertionSort pairLe).map Prod.snd).Perm
      (d₁.map Prod.snd) := by
  have hσ₂ : ∀ k ∈ d₂.map Prod.fst, concatSliceOf y k = .ok (σ k) := by
    intro k hk
    apply hσ
    obtain ⟨pz, hpz, rfl⟩ := List.mem_map.mp hk
    exact List.mem_map.mpr ⟨pz, hperm.symm.subset hpz, rfl⟩
  have run : ∀ (d : List (KeySymbol × β)),
      (∀ k ∈ d.map Prod.fst, concatSliceOf y k = .ok (σ k)) →
      concatenateInOrderList y d false
        = .ok (((d.map (fun p => (σ p.1, p.2))).insertionSort pairLe).map
            Prod.snd) := by
    intro d hd
    unfold concatenateInOrderList
    rw [slicesOf_eq_map y σ (d.map Prod.fst) hd]
    simp [List.map_map, List.zip_map', Function.comp]
  have h₁ := run d₁ hσ
  have h₂ := run d₂ hσ₂
  have hmperm : (d₂.map (fun p => (σ p.1, p.2))).Perm
      (d₁.map (fun p => (σ p.1, p.2))) := (hperm.map _).symm
  have hnodup₁ : (((d₁.map (fun p => (σ p.1, p.2))).insertionSort
      pairLe).map (fun p => p.1.start)).Nodup := by
    have hp : (((d₁.map (fun p => (σ p.1, p.2))).insertionSort pairLe).map
        (fun p => p.1.start)).Perm
          ((d₁.map (fun p => (σ p.1, p.2))).map (fun p => p.1.start)) :=
      (List.perm_insertionSort pairLe _).map _
    rw [hp.nodup_iff]
    rw [List.map_map]
    simpa using hnodup
  have hsorteq : (d₂.map (fun p => (σ p.1, p.2))).insertionSort pairLe
      = (d₁.map (fun p => (σ p.1, p.2))).insertionSort pairLe := by
    apply sorted_perm_unique
    · exact (List.perm_insertionSort pairLe _).trans
        (hmperm.trans (List.perm_insertionSort pairLe _).symm)
    · exact List.sorted_insertionSort pairLe _
    · exact List.sorted_insertionSort pairLe _
    · have hp : (((d₂.map (fun p => (σ p.1, p.2))).insertionSort pairLe).map
          (fun p => p.1.start)).Perm
            (((d₁.map (fun p => (σ p.1, p.2))).insertionSort pairLe).map
              (fun p => p.1.start)) := by
        apply List.Perm.map
        exact (List.perm_insertionSort pairLe _).trans
          (hmperm.trans (List.perm_insertionSort pairLe _).symm)
      rw [hp.nodup_iff]
      exact hnodup₁
  refine ⟨h₁, ?_, List.sorted_insertionSort pairLe _, ?_⟩
  · rw [h₁, h₂, hsorteq]
  · have := (List.perm_insertionSort pairLe
      (d₁.map (fun p => (σ p.1, p.2)))).map Prod.snd
    refine this.trans ?_
    rw [List.map_map]
    exact List.Perm.refl _

/-- Witness for C2: with slices `a ↦ [0,1)`, `b ↦ [1,2)`, the reversed
dictionary `{b: eq_b, a: eq_a}` concatenates to the same slice-ordered
list `[eq_a, eq_b]` as the in-order dictionary. -/
theorem concatenate_in_order_sorted_witness :
    concatenateInOrderList ySlicesTwo dictBA false
      = concatenateInOrderList ySlicesTwo dictAB false ∧
    concatenateInOrderList ySlicesTwo dictAB false = .ok ["eq_a", "eq_b"] :=
  ⟨(concatenate_in_order_sorted ySlicesTwo dictAB dictBA sigmaTwo
      (by decide) (by decide) (by decide)).2.1, by decide⟩

/-- C7 counterexample: with unknowns `a` (id 1) and `b` (id 2) in the slice
map but an initial condition only for `a`, the error raised by
`_concatenate_in_order(check_complete=True)` lists the *provided* name `a`
and does not name the missing unknown `b`. -/
theorem concatenate_in_order_error_names_given :
    concatenateInOrderList ySlicesTwo dictOnlyA true
      = .error (.modelError
          "Initial conditions are insufficient. Only provided for" ["a"]) ∧
    (∀ msg names, concatenateInOrderList ySlicesTwo dictOnlyA true
      = .error (.modelError msg names) → ¬ ("b" ∈ names)) := by
  have h1 : concatenateInOrderList ySlicesTwo dictOnlyA true
      = .error (.modelError
          "Initial conditions are insufficient. Only provided for" ["a"]) := by
    decide
  refine ⟨h1, ?_⟩
  intro msg names h
  rw [h1] at h
  simp only [Except.error.injEq, PyError.modelError.injEq] at h
  rw [← h.2]
  decide

/-- C7 (amended): provided every given unknown resolves to a slice, the
completeness check raises the descriptive `ModelError` — naming the
*provided* unknowns — exactly when the unpacked id set differs from the
slice map's key set, and raises nothing when the sets agree. -/
theorem concatenate_in_order_check_complete {β : Type}
    (y : List (ℕ × PySlice)) (dict : List (KeySymbol × β))
    (σ : KeySymbol → PySlice)
    (hσ : ∀ k ∈ dict.map Prod.fst, concatSliceOf y k = .ok (σ k)) :
    (sameKeySet ((unpackVariables (dict.map Prod.fst)).map PyVariable.id)
        (dictKeys y) = false →
      concatenateInOrderList y dict true
        = .error (.modelError
            "Initial conditions are insufficient. Only provided for"
            (dict.map (fun p => p.1.pyName)))) ∧
    (sameKeySet ((unpackVariables (dict.map Prod.fst)).map PyVariable.id)
        (dictKeys y) = true →
      ∃ out, concatenateInOrderList y dict true = .ok out) := by
  unfold concatenateInOrderList
  rw [slicesOf_eq_map y σ (dict.map Prod.fst) hσ]
  constructor
  · intro hff
    simp [hff]
  · intro htt
    simp [htt]

/-- Witness for C7's amended statement, covering both branches: the
incomplete dictionary raises the `ModelError` naming `a`; the complete
dictionary raises nothing. -/
theorem concatenate_in_order_check_complete_witness :
    concatenateInOrderList ySlicesTwo dictOnlyA true
      = .error (.modelError
          "Initial conditions are insufficient. Only provided for" ["a"]) ∧
    (∃ out, concatenateInOrderList ySlicesTwo dictAB true = .ok out) :=
  ⟨by
    have h := (concatenate_in_order_check_complete ySlicesTwo dictOnlyA
      sigmaTwo (by decide)).1 (by decide)
    simpa [dictOnlyA, KeySymbol.pyName] using h,
   (concatenate_in_order_check_complete ySlicesTwo dictAB
      sigmaTwo (by decide)).2 (by decide)⟩

theorem rangeMap_getD (n j : ℕ) (f : ℕ → ℚ) (hj : j < n) :
    ((List.range n).map f).getD j 0 = f j := by
  rw [List.getD_eq_getElem _ _ (by simpa using hj)]
  simp

theorem map_getD_of_lt (f : ℚ → ℚ) (l : List ℚ) (i : ℕ) (hi : i < l.length) :
    (l.map f).getD i 0 = f (l.getD i 0) := by
  rw [List.getD_eq_getElem _ _ (by simpa using hi),
    List.getD_eq_getElem _ _ hi, List.getElem_map]

theorem spdiags_length (data : List (List ℚ)) (offsets : List ℤ) (m n : ℕ) :
    (spdiags data offsets m n).length = m := by
  simp [spdiags]

theorem spdiags_row (data : List (List ℚ)) (offsets : List ℤ) (m n i : ℕ)
    (hi : i < m) :
    (spdiags data offsets m n).getD i []
      = (List.range n).map (fun j => spdiagsEntry data offsets i j) := by
  unfold spdiags
  rw [List.getD_eq_getElem _ _ (by simpa using hi)]
  simp

theorem matVec_getD (M : List (List ℚ)) (u : List ℚ) (i : ℕ)
    (hi : i < M.length) :
    (matVec M u).getD i 0
      = ∑ j ∈ Finset.range u.length, (M.getD i []).getD j 0 * u.getD j 0 := by
  unfold matVec
  rw [List.getD_eq_getElem _ _ (by simpa using hi), List.getElem_map,
    ← List.getD_eq_getElem M [] hi]

theorem gradient_entry (s : FVSubmesh) (hd : s.d_nodes.length = s.npts - 1)
    (i j : ℕ) (hi : i < s.npts - 1) :
    spdiagsEntry
      [(s.d_nodes.map (fun d => -(1 / d))) ++ [0],
       0 :: s.d_nodes.map (fun d => 1 / d)] [0, 1] i j
    = if j = i then -(1 / s.d_nodes.getD i 0)
      else if j = i + 1 then 1 / s.d_nodes.getD i 0 else 0 := by
  have hid : i < s.d_nodes.length := by omega
  unfold spdiagsEntry
  by_cases h1 : j = i
  · have hb0 : decide ((0 : ℤ) = (j : ℤ) - (i : ℤ)) = true :=
      decide_eq_true (by omega)
    have hb1 : decide ((1 : ℤ) = (j : ℤ) - (i : ℤ)) = false :=
      decide_eq_false (by omega)
    simp only [List.zip, List.zipWith, List.filter, hb0, hb1, List.foldl,
      zero_add]
    rw [if_pos h1, h1]
    rw [List.getD_append _ _ _ _ (by simpa [hd] using hi)]
    rw [map_getD_of_lt _ _ _ hid]
  · by_cases h2 : j = i + 1
    · have hb0 : decide ((0 : ℤ) = (j : ℤ) - (i : ℤ)) = false :=
        decide_eq_false (by omega)
      have hb1 : decide ((1 : ℤ) = (j : ℤ) - (i : ℤ)) = true :=
        decide_eq_true (by omega)
      simp only [List.zip, List.zipWith, List.filter, hb0, hb1, List.foldl,
        zero_add]
      rw [if_neg h1, if_pos h2, h2]
      rw [List.getD_cons_succ]
      rw [map_getD_of_lt _ _ _ hid]
    · have hb0 : decide ((0 : ℤ) = (j : ℤ) - (i : ℤ)) = false :=
        decide_eq_false (by omega)
      have hb1 : decide ((1 : ℤ) = (j : ℤ) - (i : ℤ)) = false :=
        decide_eq_false (by omega)
      simp only [List.zip, List.zipWith, List.filter, hb0, hb1, List.foldl]
      simp [h1, h2]

/-- C6: for a combined submesh with `n` cell centres, the finite-volume
gradient matrix is the `(n-1) × n` bidiagonal operator with
`(G·u)[i] = (u[i+1] - u[i]) / d_nodes[i]`. -/
theorem gradient_matrix_spec (s : FVSubmesh) (u : List ℚ) (i : ℕ)
    (hd : s.d_nodes.length = s.npts - 1) (hu : u.length = s.npts)
    (hi : i < s.npts - 1) :
    (gradientMatrixRows s).length = s.npts - 1 ∧
    (∀ row ∈ gradientMatrixRows s, row.length = s.npts) ∧
    (matVec (gradientMatrixRows s) u).getD i 0
      = (u.getD (i + 1) 0 - u.getD i 0) / s.d_nodes.getD i 0 := by
  have hnp : 2 ≤ s.npts := by omega
  have hm : (gradientMatrixRows s).length = s.npts - 1 := by
    unfold gradientMatrixRows
    exact spdiags_length _ _ _ _
  refine ⟨hm, ?_, ?_⟩
  · intro row hrow
    unfold gradientMatrixRows spdiags at hrow
    obtain ⟨k, _, rfl⟩ := List.mem_map.mp hrow
    simp
  · rw [matVec_getD _ _ i (by rw [hm]; exact hi)]
    have hrow : (gradientMatrixRows s).getD i []
        = (List.range s.npts).map (fun j => spdiagsEntry
            [(s.d_nodes.map (fun d => -(1 / d))) ++ [0],
             0 :: s.d_nodes.map (fun d => 1 / d)] [0, 1] i j) := by
      unfold gradientMatrixRows
      exact spdiags_row _ _ _ _ i hi
    rw [hrow]
    have hsum : ∀ j ∈ Finset.range u.length,
        ((List.range s.npts).map (fun j => spdiagsEntry
            [(s.d_nodes.map (fun d => -(1 / d))) ++ [0],
             0 :: s.d_nodes.map (fun d => 1 / d)] [0, 1] i j)).getD j 0
          * u.getD j 0
        = (if j = i then -(1 / s.d_nodes.getD i 0) * u.getD j 0 else 0)
          + (if j = i + 1 then (1 / s.d_nodes.getD i 0) * u.getD j 0
              else 0) := by
      intro j hj
      have hjn : j < s.npts := by
        rw [← hu]; exact Finset.mem_range.mp hj
      rw [rangeMap_getD _ _ _ hjn, gradient_entry s hd i j hi]
      by_cases h1 : j = i
      · subst h1; simp
      · by_cases h2 : j = i + 1
        · subst h2; simp [h1]
        · simp [h1, h2]
    rw [Finset.sum_congr rfl hsum, Finset.sum_add_distrib]
    have hiu : i ∈ Finset.range u.length := by
      rw [Finset.mem_range, hu]; omega
    have hi1u : i + 1 ∈ Finset.range u.length := by
      rw [Finset.mem_range, hu]; omega
    rw [Finset.sum_ite_eq' (Finset.range u.length) i
      (fun j => -(1 / s.d_nodes.getD i 0) * u.getD j 0)]
    rw [Finset.sum_ite_eq' (Finset.range u.length) (i + 1)
      (fun j => (1 / s.d_nodes.getD i 0) * u.getD j 0)]
    rw [if_pos hiu, if_pos hi1u]
    ring

/-- Witness for C6 on a 3-point uniform submesh with spacing 1/2 and
`u = [1, 2, 4]`: `(G·u)[1] = (4 - 2)/(1/2) = 4`. -/
theorem gradient_matrix_spec_witness :
    ((matVec (gradientMatrixRows submeshC6) [1, 2, 4]).getD 1 0
      = (([1, 2, 4] : List ℚ).getD 2 0 - ([1, 2, 4] : List ℚ).getD 1 0)
        / submeshC6.d_nodes.getD 1 0) ∧
    (matVec (gradientMatrixRows submeshC6) [1, 2, 4]).getD 1 0 = 4 := by
  have h := (gradient_matrix_spec submeshC6 [1, 2, 4] 1 (by decide)
    (by decide) (by decide)).2.2
  refine ⟨h, ?_⟩
  rw [h]
  norm_num [submeshC6, List.getD]

/-- C4: the divergence's spherical check
`("negative particle" or "positive particle") in domain` evaluates the
`or` first (yielding `"negative particle"`), so on the positive particle
domain the PLAIN divergence matrix is applied with no `1/r²` correction —
while the negative particle domain does get the spherical form. -/
theorem divergence_positive_particle_plain :
    fvDivergence meshPos cPosVar cPosDisc []
      = .ok (.matmul (.matrixNode (divergenceMatrixRows subPosCombined))
          cPosDisc) ∧
    pyOrStr "negative particle" "positive particle" = "negative particle" ∧
    (∀ e1 e2, fvDivergence meshPos cPosVar cPosDisc [] ≠ .ok (.mul e1 e2)) ∧
    fvDivergence meshNeg cNegPVar cNegPDisc []
      = .ok (.mul
          (.divOp (.scalar 1)
            (.pow (.vector subNegCombined.nodes) (.scalar 2)))
          (.matmul (.matrixNode (divergenceMatrixRows subNegCombined))
            (.mul (.pow (.vector subNegCombined.edges) (.scalar 2))
              cNegPDisc))) := by
  refine ⟨rfl, rfl, ?_, rfl⟩
  intro e1 e2 h
  rw [show fvDivergence meshPos cPosVar cPosDisc []
      = .ok (.matmul (.matrixNode (divergenceMatrixRows subPosCombined))
          cPosDisc) from rfl] at h
  simp at h

/-- C3: `FiniteVolume.gradient` keys only on the presence of a
boundary-condition entry and never reads the stored kind: with a purely
Neumann table it still inserts ghost nodes built from the raw
`(expression, kind)` pairs and builds the gradient matrix on the
ghost-extended domain; with no entry it builds the plain matrix. -/
theorem gradient_neumann_adds_ghost_nodes :
    fvGradient meshC3 cC3Var cC3Disc bcsNeumannC3
      = .ok (.matmul (.matrixNode (gradientMatrixRows subC3ext))
          (.numpyConcatenation
            [.sub (.mul (.scalar 2) (.bcTuple (.scalar 0) "Neumann"))
               (.stateVector ⟨0, 1⟩ []),
             cC3Disc,
             .sub (.mul (.scalar 2) (.bcTuple (.scalar 2) "Neumann"))
               (.stateVector ⟨2, 3⟩ [])])) ∧
    fvGradient meshC3 cC3Var cC3Disc []
      = .ok (.matmul (.matrixNode (gradientMatrixRows subC3plain)) cC3Disc) :=
  ⟨rfl, rfl⟩

/-- C5: under the current engine the finite-volume method inherits
`SpatialMethod.process_binary_operators`, which rebuilds `D * grad(c)` on
the discretised children with no `NodeToEdge` averaging of the cell-valued
operand, even though exactly one side has a gradient and no divergence;
the legacy `BaseDiscretisation.process_binary_operators` averaging step
does wrap that operand. -/
theorem process_binary_operators_no_averaging :
    processBinaryOperatorsBase binC5 dVarC5 gradC5 discDC5 discGradC5
      = .ok (.mul discDC5 discGradC5) ∧
    hasGradNotDiv gradC5 = true ∧
    hasGradNotDiv dVarC5 = false ∧
    (∀ l r, processBinaryOperatorsBase binC5 dVarC5 gradC5 discDC5 discGradC5
        = .ok (.mul l r) → l = discDC5 ∧ r = discGradC5) ∧
    legacyBinaryAveraging dVarC5 gradC5 discDC5 discGradC5
      = (.nodeToEdge discDC5, discGradC5) := by
  refine ⟨rfl, rfl, rfl, ?_, rfl⟩
  intro l r h
  rw [show processBinaryOperatorsBase binC5 dVarC5 gradC5 discDC5 discGradC5
      = .ok (.mul discDC5 discGradC5) from rfl] at h
  simp only [Except.ok.injEq, Expr.mul.injEq] at h
  exact ⟨h.1.symm, h.2.symm⟩

/-- C8 counterexample: on a model with both a repeated key and a dangling
equation variable, `check_well_posedness` raises the overdetermined
(repeated keys) error, not the underdetermined one — the claim's universal
"raises an underdetermined model error" fails for such models. -/
theorem check_well_posedness_overdetermined_first :
    ((varsInPreList (modelBoth8.rhs.map Prod.snd)
        ++ varsInPreList (modelBoth8.algebraic.map Prod.snd)).any (fun i =>
      !(varsInPreList (modelBoth8.rhs.map Prod.fst)
        ++ varsInPreList (modelBoth8.algebraic.map Prod.fst)).contains i)
      = true) ∧
    checkWellPosedness modelBoth8 = some .overdeterminedRepeatedKeys ∧
    checkWellPosedness modelBoth8 ≠ some .underdetermined := by
  refine ⟨by decide, by decide, by decide⟩

/-- C8 (amended): a variable keying both rhs and algebraic raises the
overdetermined (repeated keys) error unconditionally — it is the first
check; a variable occurring in an equation but not among the keys raises
the underdetermined error provided neither overdetermined check (repeated
keys, or an algebraic key absent from the equations) fires first. -/
theorem check_well_posedness_over_under (m : BaseModel) :
    ((varsInPreList (m.rhs.map Prod.fst)).any
        (fun i => (varsInPreList (m.algebraic.map Prod.fst)).contains i)
          = true →
      checkWellPosedness m = some .overdeterminedRepeatedKeys) ∧
    ((varsInPreList (m.rhs.map Prod.fst)).any
        (fun i => (varsInPreList (m.algebraic.map Prod.fst)).contains i)
          = false →
     (varsInPreList (m.algebraic.map Prod.fst)).any (fun i =>
        !(varsInPreList (m.rhs.map Prod.snd)
          ++ varsInPreList (m.algebraic.map Prod.snd)).contains i) = false →
     (varsInPreList (m.rhs.map Prod.snd)
        ++ varsInPreList (m.algebraic.map Prod.snd)).any (fun i =>
        !(varsInPreList (m.rhs.map Prod.fst)
          ++ varsInPreList (m.algebraic.map Prod.fst)).contains i) = true →
      checkWellPosedness m = some .underdetermined) := by
  constructor
  · intro h1
    unfold checkWellPosedness
    rw [if_pos h1]
  · intro h1 h2 h3
    unfold checkWellPosedness
    rw [if_neg (by rw [h1]; exact Bool.false_ne_true),
      if_neg (by rw [h2]; exact Bool.false_ne_true), if_pos h3]

/-- Witness for C8: the repeated-key model raises overdetermined; the
dangling-variable model raises underdetermined. -/
theorem check_well_posedness_over_under_witness :
    checkWellPosedness modelBoth8 = some .overdeterminedRepeatedKeys ∧
    checkWellPosedness modelUnder8 = some .underdetermined :=
  ⟨(check_well_posedness_over_under modelBoth8).1 (by decide),
   (check_well_posedness_over_under modelUnder8).2 (by decide) (by decide)
     (by decide)⟩

/-- C10: every call of `domain_concatenation` that reaches its return value
has invoked — after assembling the concatenation — the IPython import,
`embed()`, the ipdb import and `ipdb.set_trace()`; the debugger events are
the unconditional tail of the trace. -/
theorem domain_concatenation_always_debugs (mesh : FVMesh)
    (children : List Expr) (res : Expr) (tr : List DebugEvent)
    (h : domainConcatenation mesh children = .ok (res, tr)) :
    DebugEvent.embedCall ∈ tr ∧ DebugEvent.setTraceCall ∈ tr ∧
    tr = [.importIPython, .embedCall, .importIpdb, .setTraceCall] := by
  unfold domainConcatenation at h
  cases hm : domainConcatLoop mesh ((children.map Expr.domainOf).flatten)
      children (.scalar 0) with
  | error e => rw [hm] at h; simp at h
  | ok conc =>
      rw [hm] at h
      simp only [Except.ok.injEq, Prod.mk.injEq] at h
      rw [← h.2]
      exact ⟨by simp, by simp, rfl⟩

/-- Witness for C10: a one-child concatenation on the separator completes
with trace exactly the four debugger events. -/
theorem domain_concatenation_always_debugs_witness :
    DebugEvent.embedCall ∈ [DebugEvent.importIPython, DebugEvent.embedCall,
      DebugEvent.importIpdb, DebugEvent.setTraceCall] ∧
    DebugEvent.setTraceCall ∈ [DebugEvent.importIPython, DebugEvent.embedCall,
      DebugEvent.importIpdb, DebugEvent.setTraceCall] ∧
    ([DebugEvent.importIPython, DebugEvent.embedCall, DebugEvent.importIpdb,
      DebugEvent.setTraceCall] : List DebugEvent)
      = [.importIPython, .embedCall, .importIpdb, .setTraceCall] :=
  domain_concatenation_always_debugs meshSM10 [child10]
    (.add (.scalar 0)
      (.matmul (.matrixNode (concatenationMatrix 2 2 0)) child10))
    [.importIPython, .embedCall, .importIpdb, .setTraceCall] rfl

/-- C9: `process_model(model, inplace=False)` passes the ORIGINAL model to
`create_mass_matrix`; on a model with an algebraic equation the original's
`concatenated_algebraic` attribute was never created (the concatenations
were stored on the fresh model), so the call raises `AttributeError`
instead of returning a fresh discretised model — while the same model
discretises fine with `inplace=True`. -/
theorem process_model_not_inplace_attribute_error :
    processModel smC9 modelC9 false
      = .error (.attributeError "concatenated_algebraic") ∧
    (∃ out, processModel smC9 modelC9 true = .ok (out, out)) := by
  constructor
  · rfl
  · exact ⟨_, rfl⟩

end PyBaMM
